import Mathlib

/-!
Shallow embedding of the nutrition-estimation pipeline
(quantityStandardizer.js, nutritionCalculator.js, ingredientMapper.js,
errorHandler.js) in Lean 4.

JavaScript numbers are modelled by `JSNum`: a rational together with the
special values NaN, +Infinity and -Infinity, with the IEEE-style
propagation rules used by the arithmetic the code performs.  Strings are
modelled as `String` / `List Char`; the concrete regular expressions of
the source are modelled by explicit deterministic scanners that implement
the leftmost-match semantics of the JS regex engine for those particular
patterns.  Data files (data/householdMeasurements.json, the nutrition CSV
and the synonym JSON) are configuration inputs of the program, so the
corresponding tables are parameters of the embedded functions.
-/

/- ## Kernel-computable rational arithmetic

`Rat.add`, `Rat.mul` and `Rat.inv` do not reduce inside the Lean kernel,
so the embedding performs its rational arithmetic through the following
`Rat.divInt`-based operations, which do reduce; the bridge lemmas
identify them with the field operations of `ℚ`. -/

/-- Kernel-computable addition on `ℚ`. -/
def qAdd (a b : ℚ) : ℚ :=
  Rat.divInt (a.num * b.den + b.num * a.den) (a.den * b.den)

/-- Kernel-computable multiplication on `ℚ`. -/
def qMul (a b : ℚ) : ℚ := Rat.divInt (a.num * b.num) (a.den * b.den)

/-- Kernel-computable negation on `ℚ`. -/
def qNeg (a : ℚ) : ℚ := Rat.divInt (-a.num) a.den

/-- Kernel-computable inverse on `ℚ`. -/
def qInv (a : ℚ) : ℚ := Rat.divInt a.den a.num

/-- Kernel-computable division on `ℚ`. -/
def qDiv (a b : ℚ) : ℚ := qMul a (qInv b)

/-- Kernel-computable power on `ℚ`. -/
def qPowNat (a : ℚ) : ℕ → ℚ
  | 0 => 1
  | n + 1 => qMul a (qPowNat a n)

lemma qAdd_eq (a b : ℚ) : qAdd a b = a + b := by
  have ha : ((a.den : ℚ)) ≠ 0 := by exact_mod_cast a.den_ne_zero
  have hb : ((b.den : ℚ)) ≠ 0 := by exact_mod_cast b.den_ne_zero
  rw [qAdd, Rat.divInt_eq_div]
  push_cast
  conv_rhs => rw [← Rat.num_div_den a, ← Rat.num_div_den b]
  field_simp

lemma qMul_eq (a b : ℚ) : qMul a b = a * b := by
  have ha : ((a.den : ℚ)) ≠ 0 := by exact_mod_cast a.den_ne_zero
  have hb : ((b.den : ℚ)) ≠ 0 := by exact_mod_cast b.den_ne_zero
  rw [qMul, Rat.divInt_eq_div]
  push_cast
  conv_rhs => rw [← Rat.num_div_den a, ← Rat.num_div_den b]
  field_simp

lemma qNeg_eq (a : ℚ) : qNeg a = -a := (Rat.neg_def a).symm

lemma qInv_eq (a : ℚ) : qInv a = a⁻¹ := (Rat.inv_def' a).symm

lemma qDiv_eq (a b : ℚ) : qDiv a b = a / b := by
  rw [qDiv, qMul_eq, qInv_eq, div_eq_mul_inv]

lemma qPowNat_eq (a : ℚ) (n : ℕ) : qPowNat a n = a ^ n := by
  induction n with
  | zero => rfl
  | succ k ih => rw [qPowNat, qMul_eq, ih, pow_succ, mul_comm]

/-- A JavaScript number: NaN, +Infinity, -Infinity, or a finite value
(modelled exactly as a rational). -/
inductive JSNum where
  | nan : JSNum
  | inf : JSNum
  | ninf : JSNum
  | num : ℚ → JSNum
deriving DecidableEq, Repr

namespace JSNum

/-- JS `+` on numbers. -/
def add : JSNum → JSNum → JSNum
  | nan, _ => nan
  | _, nan => nan
  | inf, ninf => nan
  | ninf, inf => nan
  | inf, _ => inf
  | _, inf => inf
  | ninf, _ => ninf
  | _, ninf => ninf
  | num a, num b => num (qAdd a b)

/-- JS `*` on numbers. -/
def mul : JSNum → JSNum → JSNum
  | nan, _ => nan
  | _, nan => nan
  | inf, inf => inf
  | inf, ninf => ninf
  | ninf, inf => ninf
  | ninf, ninf => inf
  | inf, num b => if b = 0 then nan else if 0 < b then inf else ninf
  | num a, inf => if a = 0 then nan else if 0 < a then inf else ninf
  | ninf, num b => if b = 0 then nan else if 0 < b then ninf else inf
  | num a, ninf => if a = 0 then nan else if 0 < a then ninf else inf
  | num a, num b => num (qMul a b)

/-- JS `/` on numbers. -/
def div : JSNum → JSNum → JSNum
  | nan, _ => nan
  | _, nan => nan
  | inf, inf => nan
  | inf, ninf => nan
  | ninf, inf => nan
  | ninf, ninf => nan
  | inf, num b => if 0 ≤ b then inf else ninf
  | ninf, num b => if 0 ≤ b then ninf else inf
  | num _, inf => num 0
  | num _, ninf => num 0
  | num a, num b =>
      if b = 0 then (if a = 0 then nan else if 0 < a then inf else ninf)
      else num (qDiv a b)

/-- JS `isNaN` on a number. -/
def isNaN : JSNum → Bool
  | nan => true
  | _ => false

/-- Whether the number is a finite rational. -/
def isRat : JSNum → Bool
  | num _ => true
  | _ => false

/-- JS falsiness of a number: `0` and `NaN` are falsy. -/
def falsy : JSNum → Bool
  | nan => true
  | num q => q = 0
  | _ => false

/-- JS `x > q` for a rational literal `q` (false on NaN). -/
def gtQ : JSNum → ℚ → Bool
  | nan, _ => false
  | inf, _ => true
  | ninf, _ => false
  | num a, q => decide (q < a)

/-- JS `x < 0` (false on NaN). -/
def ltZero : JSNum → Bool
  | nan => false
  | inf => false
  | ninf => true
  | num a => decide (a < 0)

/-- JS unary minus. -/
def negJS : JSNum → JSNum
  | nan => nan
  | inf => ninf
  | ninf => inf
  | num a => num (qNeg a)

/-- JS `Math.round` (round half toward +Infinity). -/
def roundJS : JSNum → JSNum
  | num q => num ((⌊qAdd q (mkRat 1 2)⌋ : ℤ) : ℚ)
  | x => x

/-- "Not negative": NaN and +Infinity count as non-negative, -Infinity
and negative rationals do not. -/
def nonneg : JSNum → Bool
  | nan => true
  | inf => true
  | ninf => false
  | num a => decide (0 ≤ a)

end JSNum

/- ## Character and list-of-characters helpers -/

/-- JS `\s` (restricted to the ASCII whitespace the inputs contain). -/
def isSpaceJS (c : Char) : Bool :=
  c = ' ' || c = '\t' || c = '\n' || c = '\r'

/-- JS `\w`: `[A-Za-z0-9_]`. -/
def isWordChar (c : Char) : Bool :=
  c.isAlphanum || c = '_'

/-- `startsWithL needle hay`: `hay` starts with `needle`. -/
def startsWithL : List Char → List Char → Bool
  | [], _ => true
  | _ :: _, [] => false
  | a :: n, b :: h => a = b && startsWithL n h

/-- `stripL needle hay`: if `hay` starts with `needle`, the rest of `hay`. -/
def stripL : List Char → List Char → Option (List Char)
  | [], l => some l
  | _ :: _, [] => none
  | a :: n, b :: h => if a = b then stripL n h else none

/-- JS `String.prototype.includes` on character lists. -/
def containsSub (needle : List Char) : List Char → Bool
  | [] => needle.isEmpty
  | c :: t => startsWithL needle (c :: t) || containsSub needle t

/-- JS `includes` on strings. -/
def substr (needle s : String) : Bool :=
  containsSub needle.toList s.toList

/-- JS `toLowerCase` (ASCII). -/
def jsLower (l : List Char) : List Char := l.map Char.toLower

/-- JS `trim` on a character list. -/
def jsTrim (l : List Char) : List Char :=
  ((l.dropWhile isSpaceJS).reverse.dropWhile isSpaceJS).reverse

/-- JS `trim` on strings. -/
def jsTrimS (s : String) : String := String.mk (jsTrim s.toList)

/-- JS `split` with a single-character separator. -/
def charSplit (sep : Char) : List Char → List (List Char)
  | [] => [[]]
  | c :: t =>
      if c = sep then [] :: charSplit sep t
      else
        match charSplit sep t with
        | [] => [[c]]
        | h :: r => (c :: h) :: r

/-- Numeric value of a digit string (most significant first). -/
def digitsVal (l : List Char) : ℕ :=
  l.foldl (fun n c => 10 * n + (c.toNat - '0'.toNat)) 0

/-- Scan a string left to right and return the first position where the
at-position matcher `p` succeeds (the leftmost-match rule of JS regexes,
advancing one character at a time on failure). -/
def scanFirst (p : List Char → Option α) : List Char → Option α
  | [] => p []
  | c :: t =>
      match p (c :: t) with
      | some a => some a
      | none => scanFirst p t

/-- At-position matcher for `\d+(\.\d+)?`: value of the decimal token
starting here, and the remainder after it. -/
def numTok (cs : List Char) : Option (ℚ × List Char) :=
  let d := cs.takeWhile Char.isDigit
  let rest := cs.dropWhile Char.isDigit
  if d.isEmpty then none
  else
    match rest with
    | '.' :: rest2 =>
        let f := rest2.takeWhile Char.isDigit
        let rest3 := rest2.dropWhile Char.isDigit
        if f.isEmpty then some ((digitsVal d : ℚ), rest)
        else some (qAdd (digitsVal d : ℚ) (qDiv (digitsVal f : ℚ) (qPowNat 10 f.length)), rest3)
    | _ => some ((digitsVal d : ℚ), rest)

/-- Apply a JS-style exponent suffix (`e`/`E`, optional sign, digits) to a
parsed mantissa; a malformed exponent is ignored, as `parseFloat` does. -/
def applyExp (q : ℚ) (rest : List Char) : JSNum :=
  match rest with
  | 'e' :: r =>
      (match r with
       | '-' :: r2 =>
           let e := r2.takeWhile Char.isDigit
           if e.isEmpty then JSNum.num q else JSNum.num (qDiv q (qPowNat 10 (digitsVal e)))
       | '+' :: r2 =>
           let e := r2.takeWhile Char.isDigit
           if e.isEmpty then JSNum.num q else JSNum.num (qMul q (qPowNat 10 (digitsVal e)))
       | _ =>
           let e := r.takeWhile Char.isDigit
           if e.isEmpty then JSNum.num q else JSNum.num (qMul q (qPowNat 10 (digitsVal e))))
  | 'E' :: r =>
      (match r with
       | '-' :: r2 =>
           let e := r2.takeWhile Char.isDigit
           if e.isEmpty then JSNum.num q else JSNum.num (qDiv q (qPowNat 10 (digitsVal e)))
       | '+' :: r2 =>
           let e := r2.takeWhile Char.isDigit
           if e.isEmpty then JSNum.num q else JSNum.num (qMul q (qPowNat 10 (digitsVal e)))
       | _ =>
           let e := r.takeWhile Char.isDigit
           if e.isEmpty then JSNum.num q else JSNum.num (qMul q (qPowNat 10 (digitsVal e))))
  | _ => JSNum.num q

/-- The unsigned part of JS `parseFloat`. -/
def parsePos (cs : List Char) : JSNum :=
  if startsWithL ['I','n','f','i','n','i','t','y'] cs then JSNum.inf
  else
    let d := cs.takeWhile Char.isDigit
    let rest := cs.dropWhile Char.isDigit
    match rest with
    | '.' :: rest2 =>
        let f := rest2.takeWhile Char.isDigit
        let rest3 := rest2.dropWhile Char.isDigit
        if d.isEmpty && f.isEmpty then JSNum.nan
        else applyExp (qAdd (digitsVal d : ℚ) (qDiv (digitsVal f : ℚ) (qPowNat 10 f.length))) rest3
    | _ => if d.isEmpty then JSNum.nan else applyExp (digitsVal d : ℚ) rest

/-- JS `parseFloat`. -/
def jsParseFloat (cs : List Char) : JSNum :=
  let cs1 := cs.dropWhile isSpaceJS
  match cs1 with
  | '-' :: rest => (parsePos rest).negJS
  | '+' :: rest => parsePos rest
  | _ => parsePos cs1

/- ## Quantity Parser (quantityStandardizer.js, parseQuantity) -/

/-- Result of parsing a quantity phrase: `{ value, unit }` with
`unit = null` signalling an unparseable phrase. -/
structure ParsedQuantity where
  value : JSNum
  unit : Option String
deriving DecidableEq, Repr

/-- A JavaScript value handed to `parseQuantity` (the public interface
accepts anything). -/
inductive JSVal where
  | vstr : String → JSVal
  | vnull : JSVal
  | vundefined : JSVal
  | vnum : JSNum → JSVal
  | vbool : Bool → JSVal
  | vobj : JSVal
deriving DecidableEq, Repr

/-- JS falsiness of an arbitrary value. -/
def jsValFalsy : JSVal → Bool
  | .vstr s => s = ""
  | .vnull => true
  | .vundefined => true
  | .vnum n => n.falsy
  | .vbool b => !b
  | .vobj => false

/-- JS `typeof v === 'string'`. -/
def jsValIsString : JSVal → Bool
  | .vstr _ => true
  | _ => false

/-- At-position matcher for `(\d+(\.\d+)?)\s*g`. -/
def matchTokG (cs : List Char) : Option ℚ :=
  match numTok cs with
  | some (q, rest) =>
      match rest.dropWhile isSpaceJS with
      | 'g' :: _ => some q
      | _ => none
  | none => none

/-- At-position matcher for `(\d+(\.\d+)?)\s*(pound|lb)s?`. -/
def matchTokPound (cs : List Char) : Option ℚ :=
  match numTok cs with
  | some (q, rest) =>
      let r := rest.dropWhile isSpaceJS
      if startsWithL ['p','o','u','n','d'] r || startsWithL ['l','b'] r then some q
      else none
  | none => none

/-- At-position matcher for `(\d+(\.\d+)?)\s*ml`. -/
def matchTokMl (cs : List Char) : Option ℚ :=
  match numTok cs with
  | some (q, rest) =>
      if startsWithL ['m','l'] (rest.dropWhile isSpaceJS) then some q
      else none
  | none => none

/-- At-position matcher for `(\d+(\.\d+)?)` (value only). -/
def matchTokNum (cs : List Char) : Option ℚ :=
  (numTok cs).map Prod.fst

/-- At-position matcher for `[a-zA-Z]+`: the maximal letter run starting
here. -/
def matchTokAlpha (cs : List Char) : Option (List Char) :=
  let a := cs.takeWhile Char.isAlpha
  if a.isEmpty then none else some a

/-- At-position matcher for `(\d+)\s*\/\s*(\d+)`: numerator and
denominator. -/
def matchTokFrac (cs : List Char) : Option (ℕ × ℕ) :=
  let d1 := cs.takeWhile Char.isDigit
  let r1 := cs.dropWhile Char.isDigit
  if d1.isEmpty then none
  else
    match r1.dropWhile isSpaceJS with
    | '/' :: r2 =>
        let r3 := r2.dropWhile isSpaceJS
        let d2 := r3.takeWhile Char.isDigit
        if d2.isEmpty then none else some (digitsVal d1, digitsVal d2)
    | _ => none

/-- At-position matcher for `\/\s*\d+\s+([a-zA-Z]+)`: the captured unit
word. -/
def matchTokFracUnit (cs : List Char) : Option (List Char) :=
  match cs with
  | '/' :: r1 =>
      let r2 := r1.dropWhile isSpaceJS
      let d := r2.takeWhile Char.isDigit
      let r3 := r2.dropWhile Char.isDigit
      if d.isEmpty then none
      else
        let s := r3.takeWhile isSpaceJS
        let r4 := r3.dropWhile isSpaceJS
        if s.isEmpty then none
        else
          let a := r4.takeWhile Char.isAlpha
          if a.isEmpty then none else some a
  | _ => none

/-- At-position matcher for `(\d+(\.\d+)?)\s+([a-zA-Z]+)`: value and
captured unit word. -/
def matchTokGeneral (cs : List Char) : Option (ℚ × List Char) :=
  match numTok cs with
  | some (q, rest) =>
      let s := rest.takeWhile isSpaceJS
      let r := rest.dropWhile isSpaceJS
      if s.isEmpty then none
      else
        let a := r.takeWhile Char.isAlpha
        if a.isEmpty then none else some (q, a)
  | none => none

/-- JS division of two naturals (`numerator / denominator`). -/
def jsDivNat (n d : ℕ) : JSNum :=
  if d = 0 then (if n = 0 then JSNum.nan else JSNum.inf)
  else JSNum.num (qDiv (n : ℚ) (d : ℚ))

/-- Branch 1 of `parseQuantity`: literal grams. -/
def branchGrams (s : String) : Option ParsedQuantity :=
  if substr "g" s && !(substr "glass" s) then
    (scanFirst matchTokG s.toList).map (fun q => ⟨JSNum.num q, some "g"⟩)
  else none

/-- Branch 2 of `parseQuantity`: pounds, converted by 453.592. -/
def branchPound (s : String) : Option ParsedQuantity :=
  if substr "pound" s || substr "lb" s then
    (scanFirst matchTokPound s.toList).map
      (fun q => ⟨JSNum.num (qMul q (mkRat 453592 1000)), some "g"⟩)
  else none

/-- Branch 3 of `parseQuantity`: milliliters. -/
def branchMl (s : String) : Option ParsedQuantity :=
  if substr "ml" s then
    (scanFirst matchTokMl s.toList).map (fun q => ⟨JSNum.num q, some "ml"⟩)
  else none

/-- Branch 4 of `parseQuantity`: ranges `a-b`, averaged. -/
def branchRange (s : String) : Option ParsedQuantity :=
  let cs := s.toList
  if cs.contains '-' then
    let parts := charSplit '-' cs
    let p0 := parts.getD 0 []
    let p1 := parts.getD 1 []
    let val1 := jsParseFloat (jsTrim p0)
    match scanFirst matchTokNum p1 with
    | some q2 =>
        let avg := (val1.add (JSNum.num q2)).div (JSNum.num 2)
        let unit := (scanFirst matchTokAlpha p1).map
          (fun w => String.mk (jsLower (jsTrim w)))
        some ⟨avg, unit⟩
    | none => none
  else none

/-- Branch 5 of `parseQuantity`: fractions `a/b`. -/
def branchFraction (s : String) : Option ParsedQuantity :=
  let cs := s.toList
  if cs.contains '/' then
    match scanFirst matchTokFrac cs with
    | some (n, d) =>
        let unit := (scanFirst matchTokFracUnit cs).map
          (fun w => String.mk (jsLower (jsTrim w)))
        some ⟨jsDivNat n d, unit⟩
    | none => none
  else none

/-- Branch 6 of `parseQuantity`: `<number> <unit>`. -/
def branchGeneral (s : String) : Option ParsedQuantity :=
  (scanFirst matchTokGeneral s.toList).map
    (fun p => ⟨JSNum.num p.1, some (String.mk (jsLower p.2))⟩)

/-- Branch 7 of `parseQuantity`: qualitative phrases. -/
def branchTaste (s : String) : Option ParsedQuantity :=
  let ls := String.mk (jsLower s.toList)
  if substr "to taste" ls || substr "as needed" ls || substr "as required" ls then
    some ⟨JSNum.num (mkRat 1 2), some "teaspoon"⟩
  else none

/-- `parseQuantity` on a non-empty string: the ordered branch chain of
the source. -/
def parseQuantityStr (s : String) : ParsedQuantity :=
  match branchGrams s with
  | some r => r
  | none =>
    match branchPound s with
    | some r => r
    | none =>
      match branchMl s with
      | some r => r
      | none =>
        match branchRange s with
        | some r => r
        | none =>
          match branchFraction s with
          | some r => r
          | none =>
            match branchGeneral s with
            | some r => r
            | none =>
              match branchTaste s with
              | some r => r
              | none => ⟨JSNum.num 0, none⟩

/-- `parseQuantity` at the public interface: the guard
`if (!quantityStr || typeof quantityStr !== 'string')` returns the
unparseable result `{value: 0, unit: null}`. -/
def parseQuantityVal (v : JSVal) : ParsedQuantity :=
  if jsValFalsy v || !jsValIsString v then ⟨JSNum.num 0, none⟩
  else
    match v with
    | .vstr s => parseQuantityStr s
    | _ => ⟨JSNum.num 0, none⟩

/-- `parseQuantity` applied to a string argument. -/
def parseQuantityS (s : String) : ParsedQuantity :=
  parseQuantityVal (JSVal.vstr s)

/- ## Conversion Table and convertToGrams (quantityStandardizer.js) -/

/-- A per-unit entry of `householdMeasurements.measurements`: either a
plain number or an object of ingredient-specific factors (possibly with a
`"default"` key). -/
inductive UnitData where
  | num : ℚ → UnitData
  | obj : List (String × ℚ) → UnitData
deriving DecidableEq, Repr

/-- The layered conversion structure of `householdMeasurements.json`:
`measurements` (unit → factor or object), `ingredients` (ingredient →
category) and `ingredientCategories` (category → unit → factor). -/
structure Measurements where
  measurements : List (String × UnitData)
  ingredients : List (String × String)
  ingredientCategories : List (String × List (String × ℚ))
deriving DecidableEq, Repr

/-- Property access `obj[key]` followed by a JS truthiness test (a value
of `0` is falsy and is skipped, exactly as `if (obj[key])` does). -/
def truthyLookup (l : List (String × ℚ)) (k : String) : Option ℚ :=
  match l.find? (fun p => p.1 = k) with
  | some p => if p.2 = 0 then none else some p.2
  | none => none

/-- `measurements[unit]`. -/
def udOf (m : Measurements) (u : String) : Option UnitData :=
  (m.measurements.find? (fun p => p.1 = u)).map Prod.snd

/-- `measurements[unit][ingredient]` with the truthiness test; property
access on a plain number yields `undefined`. -/
def objLookup (m : Measurements) (u ing : String) : Option ℚ :=
  match udOf m u with
  | some (.obj l) => truthyLookup l ing
  | _ => none

/-- JS coercion of an object key: `obj[null]` reads property `"null"`. -/
def jsKey : Option String → String
  | some u => u
  | none => "null"

/-- The `piece` branch of `convertToGrams` (ingredient-specific entry,
then the `default` entry; otherwise fall through). -/
def pieceStep (m : Measurements) (v : JSNum) (ing : String) : Option JSNum :=
  match objLookup m "piece" ing with
  | some f => some (v.mul (JSNum.num f))
  | none =>
      match objLookup m "piece" "default" with
      | some f => some (v.mul (JSNum.num f))
      | none => none

/-- The `medium` branch of `convertToGrams`: ingredient-specific entry or
the hard-coded 120 g default; this branch always returns. -/
def mediumStep (m : Measurements) (v : JSNum) (ing : String) : JSNum :=
  match objLookup m "medium" ing with
  | some f => v.mul (JSNum.num f)
  | none => v.mul (JSNum.num 120)

/-- `ingredients[ing]` with truthiness (an empty string is falsy). -/
def truthyStrLookup (l : List (String × String)) (k : String) : Option String :=
  match l.find? (fun p => p.1 = k) with
  | some p => if p.2 = "" then none else some p.2
  | none => none

/-- The category branch of `convertToGrams`. -/
def categoryStep (m : Measurements) (v : JSNum) (ing : String)
    (unit : Option String) : Option JSNum :=
  match truthyStrLookup m.ingredients ing with
  | some cat =>
      match m.ingredientCategories.find? (fun p => p.1 = cat) with
      | some p => (truthyLookup p.2 (jsKey unit)).map (fun f => v.mul (JSNum.num f))
      | none => none
  | none => none

/-- The global per-unit branch of `convertToGrams`
(`if (unit && measurements[unit]) ...`). -/
def globalStep (m : Measurements) (v : JSNum) (ing : String)
    (unit : Option String) : Option JSNum :=
  match unit with
  | none => none
  | some u =>
      if u = "" then none
      else
        match udOf m u with
        | none => none
        | some (.num q) => if q = 0 then none else some (v.mul (JSNum.num q))
        | some (.obj l) =>
            match truthyLookup l ing with
            | some f => some (v.mul (JSNum.num f))
            | none =>
                match truthyLookup l "default" with
                | some f => some (v.mul (JSNum.num f))
                | none => some (v.mul (JSNum.num 10))

/-- The hard-coded absolute fallback table of `convertToGrams`. -/
def defaultConversions : List (String × ℚ) :=
  [("cup", 150), ("tablespoon", 15), ("teaspoon", 5), ("piece", 30),
   ("clove", 5), ("inch", 10), ("handful", 30), ("pinch", mkRat 1 2)]

/-- The final fallback of `convertToGrams`:
`value * (defaultConversions[unit] || 10)`. -/
def defaultStep (v : JSNum) (unit : Option String) : JSNum :=
  let d : ℚ :=
    match defaultConversions.find? (fun p => p.1 = jsKey unit) with
    | some p => if p.2 = 0 then 10 else p.2
    | none => 10
  v.mul (JSNum.num d)

/-- The category / global / absolute-fallback tail of `convertToGrams`
(the code past the `medium` branch). -/
def convertStage3 (m : Measurements) (v : JSNum) (ing : String)
    (unit : Option String) : JSNum :=
  match categoryStep m v ing unit with
  | some r => r
  | none =>
      match globalStep m v ing unit with
      | some r => r
      | none => defaultStep v unit

/-- The `medium` branch of `convertToGrams` followed by the tail. -/
def convertStage2 (m : Measurements) (v : JSNum) (ing : String)
    (unit : Option String) : JSNum :=
  if unit = some "medium" then mediumStep m v ing
  else convertStage3 m v ing unit

/-- The `piece` branch of `convertToGrams` followed by the rest of the
fallthrough chain. -/
def convertTail (m : Measurements) (v : JSNum) (ing : String)
    (unit : Option String) : JSNum :=
  match (if unit = some "piece" then pieceStep m v ing else none) with
  | some r => r
  | none => convertStage2 m v ing unit

/-- `convertToGrams(parsedQuantity, mappedIngredientName)`: "g" and "ml"
return the value unchanged; otherwise the sequential fallthrough chain of
the source (piece, medium, category, global table, absolute fallback),
with `normalizedIngredient = (mappedIngredientName || '').toLowerCase().trim()`. -/
def convertToGrams (m : Measurements) (pq : ParsedQuantity)
    (name : Option String) : JSNum :=
  if pq.unit = some "g" then pq.value
  else if pq.unit = some "ml" then pq.value
  else
    convertTail m pq.value
      (String.mk (jsTrim (jsLower (name.getD "").toList))) pq.unit

/-- `standardizeToGrams(quantity, mappedIngredientName)`: parse then
convert (the second argument of `parseQuantity` is only used for
logging). -/
def standardizeToGrams (m : Measurements) (quantity : String)
    (name : Option String) : JSNum :=
  convertToGrams m (parseQuantityS quantity) name

/-- Modelled from the spec: the contents of
`data/householdMeasurements.json` are not part of the source tree; this
concrete table follows the examples of spec §3 and §4.3 (piece →
{potato: 150, egg: 50} with a global piece default, category
"leafy_green" → {cup: 30}, global unit defaults) and is used only to
instantiate witnesses and counterexamples. -/
def specMeasurements : Measurements :=
  { measurements :=
      [("piece", .obj [("potato", 150), ("egg", 50), ("default", 50)]),
       ("medium", .obj [("onion", 120)]),
       ("cup", .num 150),
       ("tablespoon", .num 15),
       ("teaspoon", .num 5),
       ("katori", .num 150),
       ("glass", .num 250)],
    ingredients := [("spinach", "leafy_green")],
    ingredientCategories := [("leafy_green", [("cup", 30)])] }

/-- All conversion factors appearing in a `Measurements` table are
non-negative. -/
def nonnegMeas (m : Measurements) : Bool :=
  m.measurements.all (fun p =>
    match p.2 with
    | .num q => decide (0 ≤ q)
    | .obj l => l.all (fun e => decide (0 ≤ e.2))) &&
  m.ingredientCategories.all (fun p => p.2.all (fun e => decide (0 ≤ e.2)))

/- ## Nutrition Aggregator (nutritionCalculator.js) -/

/-- One row of the processed nutrition CSV: all cells are strings (the
loader performs no numeric conversion); an absent column is the empty
string. -/
structure NutritionRecord where
  ingredient : String
  calories_per_100g : String
  protein_per_100g : String
  carbs_per_100g : String
  fat_per_100g : String
  fiber_per_100g : String
deriving DecidableEq, Repr

/-- The five computed nutrient fields of an ingredient or of a dish. -/
structure Nutrition where
  calories : JSNum
  protein : JSNum
  carbs : JSNum
  fat : JSNum
  fiber : JSNum
deriving DecidableEq, Repr

/-- One entry of the recipe's ingredient list. -/
structure Ingredient where
  name : String
  quantity : String
  standardQuantity : Option String
deriving DecidableEq, Repr

/-- `ingredient.standardQuantity || ingredient.quantity` (an empty
`standardQuantity` is falsy). -/
def qtyOf (i : Ingredient) : String :=
  match i.standardQuantity with
  | some s => if s = "" then i.quantity else s
  | none => i.quantity

/-- The outcome of the asynchronous
`ingredientMapper.getNutritionData(name)` call for one ingredient: a
nutrition row, `null` (mapping failed without throwing), or a thrown
exception.  This is the only suspending / throwing operation inside the
per-ingredient `try` block. -/
inductive MapOutcome where
  | found : NutritionRecord → MapOutcome
  | notFound : MapOutcome
  | threw : String → MapOutcome
deriving DecidableEq, Repr

/-- The per-ingredient record pushed by `calculateNutrition`. -/
structure ProcessedIngredient where
  ingredient : String
  mappedName : Option String
  quantity : String
  weight_g : JSNum
  nutrition : Option Nutrition
  error : Option String
deriving DecidableEq, Repr

/-- `parseFloat(row.field || 0)`: an empty cell is falsy, giving 0. -/
def pfField (s : String) : JSNum :=
  if s = "" then JSNum.num 0 else jsParseFloat s.toList

/-- `(parseFloat(field || 0) * quantityInGrams) / 100`. -/
def scaleField (s : String) (w : JSNum) : JSNum :=
  ((pfField s).mul w).div (JSNum.num 100)

/-- `if (isNaN(x)) x = 0`. -/
def nanFix (x : JSNum) : JSNum :=
  if x.isNaN then JSNum.num 0 else x

/-- The per-ingredient NaN-validation loop
(`for key in ingredientNutrition`). -/
def nanFixNutrition (n : Nutrition) : Nutrition :=
  ⟨nanFix n.calories, nanFix n.protein, nanFix n.carbs, nanFix n.fat,
   nanFix n.fiber⟩

/-- The body of the per-ingredient `try` block: either throws (modelled
by `Except.error`) or returns `null` for a failed mapping or the mapped
name, standardized weight and scaled, NaN-fixed nutrition. -/
def processBody (m : Measurements) (i : Ingredient) (o : MapOutcome) :
    Except String (Option (String × JSNum × Nutrition)) :=
  match o with
  | .threw msg => .error msg
  | .notFound => .ok none
  | .found rec =>
      let w := standardizeToGrams m (qtyOf i) (some rec.ingredient)
      let nut : Nutrition :=
        ⟨scaleField rec.calories_per_100g w,
         scaleField rec.protein_per_100g w,
         scaleField rec.carbs_per_100g w,
         scaleField rec.fat_per_100g w,
         scaleField rec.fiber_per_100g w⟩
      .ok (some (rec.ingredient, w, nanFixNutrition nut))

/-- One iteration of `calculateNutrition`'s `ingredients.map`: the `try`
block, with the `catch` recording `error.message` and the unconditional
`push` of the tracking record. -/
def processIngredient (m : Measurements) (i : Ingredient) (o : MapOutcome) :
    ProcessedIngredient :=
  match processBody m i o with
  | .error msg => ⟨i.name, none, qtyOf i, JSNum.num 0, none, some msg⟩
  | .ok none => ⟨i.name, none, qtyOf i, JSNum.num 0, none, none⟩
  | .ok (some (mn, w, nut)) => ⟨i.name, some mn, qtyOf i, w, some nut, none⟩

/-- The aggregation step of `calculateNutrition`: a processed ingredient
contributes to the running totals and total weight only when its
`nutrition` field is non-null. -/
def totStep (acc : Nutrition × JSNum) (p : ProcessedIngredient) :
    Nutrition × JSNum :=
  match p.nutrition with
  | some nu =>
      (⟨acc.1.calories.add nu.calories, acc.1.protein.add nu.protein,
        acc.1.carbs.add nu.carbs, acc.1.fat.add nu.fat,
        acc.1.fiber.add nu.fiber⟩,
       acc.2.add p.weight_g)
  | none => acc

/-- The return value of `calculateNutrition`. -/
structure CalcResult where
  totalNutrition : Nutrition
  processedIngredients : List ProcessedIngredient
  totalWeightInGrams : JSNum
deriving DecidableEq, Repr

/-- `calculateNutrition(ingredients)`: each ingredient is processed
independently (the mapping outcome of each ingredient is supplied
alongside it), the totals are accumulated over the records with non-null
`nutrition`, and a final loop NaN-fixes the five total nutrient fields
(but not the total weight). -/
def calculateNutrition (m : Measurements)
    (items : List (Ingredient × MapOutcome)) : CalcResult :=
  let processed := items.map (fun p => processIngredient m p.1 p.2)
  let t := processed.foldl totStep
    (⟨JSNum.num 0, JSNum.num 0, JSNum.num 0, JSNum.num 0, JSNum.num 0⟩,
     JSNum.num 0)
  { totalNutrition := nanFixNutrition t.1,
    processedIngredients := processed,
    totalWeightInGrams := t.2 }

/-- JS summation of a list of numbers. -/
def sumJS (l : List JSNum) : JSNum := l.foldl JSNum.add (JSNum.num 0)

/-- The calories of the processed ingredients whose `nutrition` is
non-null. -/
def resolvedField (f : Nutrition → JSNum) (l : List ProcessedIngredient) :
    List JSNum :=
  l.filterMap (fun p => p.nutrition.map f)

/-- The weights of the processed ingredients whose `nutrition` is
non-null. -/
def resolvedWeights (l : List ProcessedIngredient) : List JSNum :=
  (l.filter (fun p => p.nutrition.isSome)).map (fun p => p.weight_g)

/- ## Per-serving computation (calculatePerServing) and
ErrorHandler.validateNutritionValues -/

/-- The return value of `calculatePerServing`. -/
structure PerServing where
  serving_size_g : JSNum
  calories : JSNum
  protein : JSNum
  carbs : JSNum
  fat : JSNum
  fiber : JSNum
deriving DecidableEq, Repr

/-- `x || 0`. -/
def jsOrZero (x : JSNum) : JSNum :=
  if x.falsy then JSNum.num 0 else x

/-- The scaling ratio of `calculatePerServing`:
`servingSize / (totalWeight || 1)`. -/
def servingRatio (servingSize : ℚ) (totalWeight : JSNum) : JSNum :=
  (JSNum.num servingSize).div
    (if totalWeight.falsy then JSNum.num 1 else totalWeight)

/-- `Math.round(v * ratio) || 0`. -/
def scaleRound0 (v ratio : JSNum) : JSNum :=
  jsOrZero (JSNum.roundJS (v.mul ratio))

/-- `Math.round(v * ratio * 10) / 10 || 0`. -/
def scaleRound1 (v ratio : JSNum) : JSNum :=
  jsOrZero ((JSNum.roundJS ((v.mul ratio).mul (JSNum.num 10))).div
    (JSNum.num 10))

/-- `calculatePerServing(totalNutrition, totalWeight, dishType)`, with
`foodTypes` the dish-type → serving-size table of
`householdMeasurements.json`.  An unknown dish type uses the 150 g
default serving and returns directly; a known dish type additionally runs
a final NaN-validation loop over the result. -/
def calculatePerServing (foodTypes : List (String × ℚ)) (tn : Nutrition)
    (totalWeight : JSNum) (dishType : String) : PerServing :=
  match (foodTypes.find? (fun p => p.1 = dishType)).map Prod.snd with
  | none =>
      let ratio := servingRatio 150 totalWeight
      ⟨JSNum.num 150,
       scaleRound0 tn.calories ratio,
       scaleRound1 tn.protein ratio,
       scaleRound1 tn.carbs ratio,
       scaleRound1 tn.fat ratio,
       scaleRound1 tn.fiber ratio⟩
  | some servingSize =>
      let ratio := servingRatio servingSize totalWeight
      let r : PerServing :=
        ⟨JSNum.num servingSize,
         scaleRound0 tn.calories ratio,
         scaleRound1 tn.protein ratio,
         scaleRound1 tn.carbs ratio,
         scaleRound1 tn.fat ratio,
         scaleRound1 tn.fiber ratio⟩
      ⟨nanFix r.serving_size_g, nanFix r.calories, nanFix r.protein,
       nanFix r.carbs, nanFix r.fat, nanFix r.fiber⟩

/-- `ErrorHandler.validateNutritionValues(nutrition)`: cap calories at
1000, zero every negative entry, then cap protein at 100, carbs at 200
and fat at 100 (each cap tests the original input value, as the source
does). -/
def validateNutritionValues (n : Nutrition) : Nutrition :=
  let c1 := if n.calories.gtQ 1000 then JSNum.num 1000 else n.calories
  let c2 := if c1.ltZero then JSNum.num 0 else c1
  let p1 := if n.protein.ltZero then JSNum.num 0 else n.protein
  let cb1 := if n.carbs.ltZero then JSNum.num 0 else n.carbs
  let f1 := if n.fat.ltZero then JSNum.num 0 else n.fat
  let fb1 := if n.fiber.ltZero then JSNum.num 0 else n.fiber
  let p2 := if n.protein.gtQ 100 then JSNum.num 100 else p1
  let cb2 := if n.carbs.gtQ 200 then JSNum.num 200 else cb1
  let f2 := if n.fat.gtQ 100 then JSNum.num 100 else f1
  ⟨c2, p2, cb2, f2, fb1⟩

/- ## Ingredient Resolver (ingredientMapper.js) -/

/-- The descriptive words/phrases removed during preprocessing, in source
order. -/
def wordsToRemove : List String :=
  ["chopped", "diced", "sliced", "minced", "grated", "cubed", "pureed",
   "finely", "roughly", "cut into", "cubes", "paste",
   "fresh", "dried", "powder", "whole", "leaves", "seeds",
   "boneless", "skinless", "plain",
   "for garnish", "to taste", "as needed", "as required",
   "medium", "large", "small",
   "1-inch", "pieces"]

/-- Worker for the global word-boundary replace `\bword\b` → `""`:
matches are located in the original string left to right (with the
boundary tests of `\b`) and removed; the fuel is the input length, which
always suffices. -/
def goRemove (w : List Char) (wLast : Char) :
    ℕ → Option Char → List Char → List Char
  | 0, _, l => l
  | _ + 1, _, [] => []
  | fuel + 1, prev, c :: t =>
      match (if (match prev with
                 | none => true
                 | some p => !isWordChar p) then stripL w (c :: t)
             else none) with
      | some rest =>
          match rest with
          | r :: _ =>
              if isWordChar r then c :: goRemove w wLast fuel (some c) t
              else goRemove w wLast fuel (some wLast) rest
          | [] => []
      | none => c :: goRemove w wLast fuel (some c) t

/-- JS `str.replace(new RegExp("\\b" + word + "\\b", "gi"), "")` on an
already-lowercased string. -/
def removeWordAll (w : String) (l : List Char) : List Char :=
  match w.toList with
  | [] => l
  | c :: cs => goRemove (c :: cs) ((c :: cs).getLastD ' ') (l.length + 1) none l

/-- Worker for `replace(/\s+/g, " ")`. -/
def collapseWsAux : Bool → List Char → List Char
  | _, [] => []
  | prevWs, c :: t =>
      if isSpaceJS c then
        (if prevWs then [] else [' ']) ++ collapseWsAux true t
      else c :: collapseWsAux false t

/-- JS `replace(/\s+/g, " ")`. -/
def collapseWs (l : List Char) : List Char := collapseWsAux false l

/-- Worker for `replace(/\s+/g, "_")`. -/
def underscoreWsAux : Bool → List Char → List Char
  | _, [] => []
  | prevWs, c :: t =>
      if isSpaceJS c then
        (if prevWs then [] else ['_']) ++ underscoreWsAux true t
      else c :: underscoreWsAux false t

/-- JS `replace(/\s+/g, "_")`. -/
def underscoreWs (l : List Char) : List Char := underscoreWsAux false l

/-- The unit vocabulary of the quantity-stripping regex, in alternation
order. -/
def unitVocab : List (List Char) :=
  [['c','u','p'], ['t','a','b','l','e','s','p','o','o','n'],
   ['t','e','a','s','p','o','o','n'], ['t','s','p'], ['t','b','s','p'],
   ['g'], ['k','g'], ['m','l'], ['l'], ['p','o','u','n','d'],
   ['l','b'], ['o','z'], ['k','a','t','o','r','i'],
   ['g','l','a','s','s']]

/-- Head of the list is a word character. -/
def wordHead : List Char → Bool
  | [] => false
  | c :: _ => isWordChar c

/-- Try one unit word followed by the greedy `s?` and a trailing `\b`;
returns the remainder after the match. -/
def tryUnitBoundary (u cs : List Char) : Option (List Char) :=
  match stripL u cs with
  | some ('s' :: r) => if wordHead r then none else some ('s' :: r).tail
  | some r => if wordHead r then none else some r
  | none => none

/-- First unit of the alternation that matches with its boundary. -/
def firstUnitBoundary : List (List Char) → List Char → Option (List Char)
  | [], _ => none
  | u :: rest, cs =>
      match tryUnitBoundary u cs with
      | some r => some r
      | none => firstUnitBoundary rest cs

/-- One unit word followed by `s?` that consumes the whole remainder
(the `$`-anchored alternative). -/
def anyUnitEnd : List (List Char) → List Char → Bool
  | [], _ => false
  | u :: rest, cs =>
      (match stripL u cs with
       | some [] => true
       | some ['s'] => true
       | _ => false) || anyUnitEnd rest cs

/-- The shared core `\d+(\.\d+)?\s*\/?\d*\s*` of the quantity regex:
the remainder after it, or `none` if there is no leading digit. -/
def quantityCore (cs : List Char) : Option (List Char) :=
  let d := cs.takeWhile Char.isDigit
  if d.isEmpty then none
  else
    let r1 := cs.dropWhile Char.isDigit
    let r2 :=
      match r1 with
      | '.' :: rr =>
          if (rr.takeWhile Char.isDigit).isEmpty then r1
          else rr.dropWhile Char.isDigit
      | _ => r1
    let r3 := r2.dropWhile isSpaceJS
    let r4 := match r3 with
              | '/' :: rr => rr
              | _ => r3
    let r5 := r4.dropWhile Char.isDigit
    some (r5.dropWhile isSpaceJS)

/-- The `^`-anchored alternative of the quantity regex: the remainder of
the string after the match. -/
def alt1Match (cs : List Char) : Option (List Char) :=
  match quantityCore cs with
  | some r => firstUnitBoundary unitVocab r
  | none => none

/-- The `$`-anchored alternative, tested at one position. -/
def tailMatch (cs : List Char) : Bool :=
  match quantityCore cs with
  | some r => anyUnitEnd unitVocab r
  | none => false

/-- Leftmost position (with a word boundary before it) where the
`$`-anchored alternative matches. -/
def findAlt2Aux (prev : Option Char) (i : ℕ) : List Char → Option ℕ
  | [] => none
  | c :: t =>
      if (match prev with
          | none => true
          | some p => !isWordChar p) && tailMatch (c :: t) then some i
      else findAlt2Aux (some c) (i + 1) t

/-- JS `replace(quantityRegex, "")`: remove the first match of
`/^(\d+(\.\d+)?\s*\/?\d*\s*(unit)s?\b)|\b(\d+(\.\d+)?\s*\/?\d*\s*(unit)s?)$/i`. -/
def removeQuantityMatch (cs : List Char) : List Char :=
  match alt1Match cs with
  | some rest => rest
  | none =>
      match findAlt2Aux none 0 cs with
      | some i => cs.take i
      | none => cs

/-- `preprocessIngredientName(rawName)`: lowercase and trim, strip one
embedded quantity-and-unit token, remove the descriptive vocabulary,
strip `(),:`, collapse whitespace; the ginger-garlic special case and the
fall-back to the lowercased original when cleaning emptied the string. -/
def preprocessIngredientName (rawName : String) : String :=
  if rawName = "" then ""
  else
    let base := jsTrim (jsLower rawName.toList)
    let c1 := jsTrim (removeQuantityMatch base)
    let c2 := wordsToRemove.foldl (fun acc w => removeWordAll w acc) c1
    let c3 := c2.filter (fun ch => !(ch = '(' || ch = ')' || ch = ',' || ch = ':'))
    let c4 := jsTrim (collapseWs c3)
    let cleaned := String.mk c4
    if cleaned = "ginger-garlic" then "ginger-garlic paste"
    else if cleaned = "" then String.mk (jsTrim (jsLower rawName.toList))
    else cleaned

/-- `findInNutritionDB(name)`: exact match on the `ingredient` column. -/
def findInNutritionDB (db : List NutritionRecord) (name : String) :
    Option NutritionRecord :=
  db.find? (fun r => r.ingredient = name)

/-- `findAllInNutritionDB(name)`: every row whose `ingredient` contains
the (lowercased) search term or its underscored form. -/
def findAllInNutritionDB (db : List NutritionRecord) (name : String) :
    List NutritionRecord :=
  if name = "" then []
  else
    let st := jsLower name.toList
    let stu := underscoreWs st
    db.filter (fun r =>
      containsSub st r.ingredient.toList || containsSub stu r.ingredient.toList)

/-- JS `replace(/sfx$/, "")` for a literal suffix. -/
def stripSfx (sfx : List Char) (s : String) : String :=
  match stripL sfx.reverse s.toList.reverse with
  | some r => String.mk r.reverse
  | none => s

/-- `sort((a, b) => a.ingredient.length - b.ingredient.length)` followed
by `[0]`: the first row of minimal name length (JS sort is stable). -/
def pickShortest (h : NutritionRecord) (t : List NutritionRecord) :
    NutritionRecord :=
  t.foldl (fun best x =>
    if x.ingredient.length < best.ingredient.length then x else best) h

/-- `getAiAssistedMatch`: the response is used only when non-empty, not
"None" and present among the database ingredient names; `resp = none`
covers an absent model, an error and a rejected response. -/
def aiAssistedMatch (db : List NutritionRecord) (resp : Option String) :
    Option String :=
  match resp with
  | none => none
  | some t =>
      let b := jsTrimS t
      if b = "" then none
      else if b = "None" then none
      else if db.any (fun r => r.ingredient = b) then some b
      else none

/-- `standardizeIngredientName(ingredientName)`: preprocessing, the
underscored and spaced exact matches, the synonym table, the substring
candidate search with its exact / plural-stripped / shortest tie-breaks,
and the assisted-match fallback. -/
def standardizeIngredientName (db : List NutritionRecord)
    (syn : List (String × String)) (ai : Option String)
    (ingredientName : String) : Option String :=
  if ingredientName = "" then none
  else
    let cleanedName := preprocessIngredientName ingredientName
    let normalized := jsTrimS cleanedName
    if normalized = "" then none
    else
      let nwu := String.mk (underscoreWs normalized.toList)
      if (findInNutritionDB db nwu).isSome then some nwu
      else if (findInNutritionDB db normalized).isSome then some normalized
      else
        let synStep : Option String :=
          match truthyStrLookup syn normalized with
          | some tgt =>
              if (findInNutritionDB db tgt).isSome then some tgt else none
          | none => none
        match synStep with
        | some t => some t
        | none =>
            match findAllInNutritionDB db normalized with
            | [] => aiAssistedMatch db ai
            | h :: t =>
                match (h :: t).find? (fun item =>
                    item.ingredient = normalized || item.ingredient = nwu) with
                | some e => some e.ingredient
                | none =>
                    match (h :: t).find? (fun item =>
                        item.ingredient = stripSfx ['s'] normalized ||
                        item.ingredient = stripSfx ['_', 's'] nwu) with
                    | some b => some b.ingredient
                    | none => some (pickShortest h t).ingredient

/- ## Concrete records used by witnesses and counterexamples -/

/-- A nutrition row for an oil-like ingredient (900 kcal per 100 g). -/
def oilRec : NutritionRecord := ⟨"oil", "900", "0", "0", "100", "0"⟩

/-- A corrupt nutrition row with a negative calories cell. -/
def negRec : NutritionRecord := ⟨"weird", "-50", "0", "0", "0", "0"⟩

/-- A corrupt nutrition row with calories "-100". -/
def negCalRec : NutritionRecord := ⟨"mystery", "-100", "0", "0", "0", "0"⟩

/- ## Helper lemmas -/

lemma nanFix_isNaN_false (x : JSNum) : (nanFix x).isNaN = false := by
  cases x <;> rfl

lemma nanFix_of_rat (x : JSNum) (h : x.isRat = true) : nanFix x = x := by
  cases x <;> simp_all [nanFix, JSNum.isRat, JSNum.isNaN]

lemma add_rat {x y : JSNum} (hx : x.isRat = true) (hy : y.isRat = true) :
    (x.add y).isRat = true := by
  cases x <;> cases y <;> simp_all [JSNum.add, JSNum.isRat]

lemma foldl_add_rat (l : List JSNum) :
    ∀ acc : JSNum, acc.isRat = true → (∀ x ∈ l, x.isRat = true) →
      (l.foldl JSNum.add acc).isRat = true := by
  induction l with
  | nil => intro acc ha _; simpa using ha
  | cons x t ih =>
      intro acc ha hl
      exact ih _ (add_rat ha (hl x (by simp)))
        (fun y hy => hl y (by simp [hy]))

lemma sumJS_rat (l : List JSNum) (h : ∀ x ∈ l, x.isRat = true) :
    (sumJS l).isRat = true :=
  foldl_add_rat l _ rfl h

/-- The shape `if hi < v then hi else if v < 0 then 0 else v` is the
clamp to `[0, hi]`. -/
lemma clampTop (hi c : ℚ) (h0 : 0 ≤ hi) :
    (if (JSNum.num c).gtQ hi then JSNum.num hi
     else if (JSNum.num c).ltZero then JSNum.num 0 else JSNum.num c)
      = JSNum.num (min hi (max 0 c)) := by
  simp only [JSNum.gtQ, JSNum.ltZero, decide_eq_true_eq]
  split_ifs with h1 h2
  · rw [max_eq_right (h0.trans h1.le), min_eq_left h1.le]
  · rw [max_eq_left h2.le, min_eq_right h0]
  · rw [max_eq_right (not_lt.mp h2), min_eq_right (not_lt.mp h1)]

/-- The calories shape of `validateNutritionValues` (cap first, then the
negative check on the capped value) is also the clamp to `[0, 1000]`. -/
lemma clampCalories (c : ℚ) :
    (if (if (JSNum.num c).gtQ 1000 then JSNum.num 1000 else JSNum.num c).ltZero
       then JSNum.num 0
       else if (JSNum.num c).gtQ 1000 then JSNum.num 1000 else JSNum.num c)
      = JSNum.num (min 1000 (max 0 c)) := by
  by_cases h : (1000 : ℚ) < c
  · simp only [JSNum.gtQ, decide_eq_true_eq, if_pos h, JSNum.ltZero]
    rw [if_neg (by norm_num)]
    rw [max_eq_right (by linarith : (0 : ℚ) ≤ c), min_eq_left h.le]
  · simp only [JSNum.gtQ, decide_eq_true_eq, if_neg h, JSNum.ltZero]
    split_ifs with h2
    · rw [max_eq_left h2.le, min_eq_right (by norm_num)]
    · rw [max_eq_right (not_lt.mp h2), min_eq_right (not_lt.mp h)]

lemma clampFiber (c : ℚ) :
    (if (JSNum.num c).ltZero then JSNum.num 0 else JSNum.num c)
      = JSNum.num (max 0 c) := by
  simp only [JSNum.ltZero, decide_eq_true_eq]
  split_ifs with h
  · rw [max_eq_left h.le]
  · rw [max_eq_right (not_lt.mp h)]

/- ## Claims -/

/-- C10: for every input that is null, undefined, the empty string, or
not a string at all, the quantity parser returns the unparseable result
`{value: 0, unit: null}` rather than throwing. -/
theorem C10_theorem :
    parseQuantityVal JSVal.vnull = ⟨JSNum.num 0, none⟩
    ∧ parseQuantityVal JSVal.vundefined = ⟨JSNum.num 0, none⟩
    ∧ parseQuantityVal (JSVal.vstr "") = ⟨JSNum.num 0, none⟩
    ∧ (∀ n : JSNum, parseQuantityVal (JSVal.vnum n) = ⟨JSNum.num 0, none⟩)
    ∧ (∀ b : Bool, parseQuantityVal (JSVal.vbool b) = ⟨JSNum.num 0, none⟩)
    ∧ parseQuantityVal JSVal.vobj = ⟨JSNum.num 0, none⟩ := by
  refine ⟨rfl, rfl, rfl, ?_, ?_, rfl⟩
  · intro n; simp [parseQuantityVal, jsValIsString]
  · intro b; cases b <;> rfl

/-- C1 (counterexample): the per-serving computation does not clamp: on
totals with 9000 calories and a matching total weight it reports 9000,
not 1000. -/
theorem C1_counterexample :
    (calculatePerServing [] ⟨JSNum.num 9000, JSNum.num 0, JSNum.num 0,
        JSNum.num 0, JSNum.num 0⟩ (JSNum.num 150) "Dal").calories
      = JSNum.num 9000
    ∧ JSNum.num 9000 ≠ JSNum.num 1000 := by
  constructor
  · decide
  · decide

/-- C1 (amended): `ErrorHandler.validateNutritionValues` clamps calories
to [0, 1000], protein to [0, 100], carbs to [0, 200], fat to [0, 100] and
fiber to [0, ∞), but `calculatePerServing` never applies it: its outputs
are only rounded, and a 9000-calorie total passes through unclamped. -/
theorem C1_amended (c p cb f fb : ℚ) :
    validateNutritionValues
        ⟨JSNum.num c, JSNum.num p, JSNum.num cb, JSNum.num f, JSNum.num fb⟩
      = ⟨JSNum.num (min 1000 (max 0 c)), JSNum.num (min 100 (max 0 p)),
         JSNum.num (min 200 (max 0 cb)), JSNum.num (min 100 (max 0 f)),
         JSNum.num (max 0 fb)⟩
    ∧ (calculatePerServing [] ⟨JSNum.num 9000, JSNum.num 0, JSNum.num 0,
          JSNum.num 0, JSNum.num 0⟩ (JSNum.num 150) "Dal").calories
        = JSNum.num 9000 := by
  constructor
  · show (⟨_, _, _, _, _⟩ : Nutrition) = _
    rw [Nutrition.mk.injEq]
    exact ⟨clampCalories c, clampTop 100 p (by norm_num),
      clampTop 200 cb (by norm_num), clampTop 100 f (by norm_num),
      clampFiber fb⟩
  · decide

/-- C4 (counterexample): for a total weight of 1/2 the source divisor is
the weight itself, not `max(totalWeight, 1)`: the computed ratio for a
150 g serving is 300, while the claimed formula gives 150. -/
theorem C4_counterexample :
    servingRatio 150 (JSNum.num (mkRat 1 2)) = JSNum.num 300
    ∧ (150 : ℚ) / max (mkRat 1 2 : ℚ) 1 = 150
    ∧ JSNum.num 300 ≠ JSNum.num 150 := by
  refine ⟨by decide, by norm_num, by decide⟩

/-- C4 (amended): the per-serving ratio is
`targetServingGrams / totalWeight` whenever `totalWeight` is a nonzero
number, and `targetServingGrams / 1` only when `totalWeight` is zero
(`totalWeight || 1` guards the zero, not the interval (0, 1)). -/
theorem C4_amended (t w : ℚ) :
    servingRatio t (JSNum.num w) = JSNum.num (t / (if w = 0 then 1 else w)) := by
  by_cases h : w = 0
  · simp [servingRatio, JSNum.falsy, JSNum.div, h, qDiv_eq]
  · simp [servingRatio, JSNum.falsy, JSNum.div, h, qDiv_eq]

/-- At most one of `nutrition` and `error` is populated in a
`ProcessedIngredient`. -/
def nutritionErrorExclusive (p : ProcessedIngredient) : Bool :=
  !(p.nutrition.isSome && p.error.isSome)

/-- C2 (counterexample): when the resolver returns null without throwing,
the resulting record has `nutrition = null` and also `error = null` - the
error field is not populated, so "exactly one of the two is populated"
fails. -/
theorem C2_counterexample :
    (processIngredient specMeasurements ⟨"unicorn dust", "1 cup", none⟩
        MapOutcome.notFound).nutrition = none
    ∧ (processIngredient specMeasurements ⟨"unicorn dust", "1 cup", none⟩
        MapOutcome.notFound).error = none := ⟨rfl, rfl⟩

/-- C2 (amended): `nutrition` and `error` are never both populated, but
the two can both be null: a failed resolution without an exception leaves
both fields null (the failure is only logged), and `error` is populated
(with `nutrition` null) exactly when the per-ingredient processing
throws. -/
theorem C2_amended (m : Measurements) (i : Ingredient) (o : MapOutcome) :
    nutritionErrorExclusive (processIngredient m i o) = true
    ∧ (processIngredient m i MapOutcome.notFound).nutrition = none
    ∧ (processIngredient m i MapOutcome.notFound).error = none
    ∧ (∀ msg, (processIngredient m i (MapOutcome.threw msg)).error = some msg
        ∧ (processIngredient m i (MapOutcome.threw msg)).nutrition = none) := by
  refine ⟨?_, rfl, rfl, fun msg => ⟨rfl, rfl⟩⟩
  cases o <;> simp [processIngredient, processBody, nutritionErrorExclusive]

/-- No nutrient field of a processed ingredient is NaN. -/
def noNaNFields (p : ProcessedIngredient) : Bool :=
  match p.nutrition with
  | none => true
  | some nu =>
      !nu.calories.isNaN && !nu.protein.isNaN && !nu.carbs.isNaN &&
      !nu.fat.isNaN && !nu.fiber.isNaN

/-- No nutrient field of a totals record is NaN. -/
def noNaNTotals (n : Nutrition) : Bool :=
  !n.calories.isNaN && !n.protein.isNaN && !n.carbs.isNaN &&
  !n.fat.isNaN && !n.fiber.isNaN

/-- C6 (counterexample): the validation loop tests `isNaN` only, so an
Infinity produced by scaling (weight `Infinity` from the phrase
"1/0 cup") is kept, and a negative per-100g cell (-50 over 100 g) yields
a negative field that is also kept - the fields are not always finite and
non-negative. -/
theorem C6_counterexample :
    ((processIngredient specMeasurements ⟨"oil", "1/0 cup", none⟩
        (MapOutcome.found oilRec)).nutrition.map (fun nu => nu.calories))
      = some JSNum.inf
    ∧ ((processIngredient specMeasurements ⟨"weird", "100 g", none⟩
        (MapOutcome.found negRec)).nutrition.map (fun nu => nu.calories))
      = some (JSNum.num (-50)) := by
  constructor
  · decide
  · decide

/-- C6 (amended): after scaling by `weightGrams / 100`, any NaN field is
coerced to 0, so no nutrient field of a `ProcessedIngredient` or of the
totals is ever NaN; Infinity is not caught by the `isNaN` test and
negative values pass through, so finiteness and non-negativity are not
guaranteed. -/
theorem C6_amended :
    (∀ (m : Measurements) (i : Ingredient) (o : MapOutcome),
        noNaNFields (processIngredient m i o) = true)
    ∧ (∀ (m : Measurements) (items : List (Ingredient × MapOutcome)),
        noNaNTotals (calculateNutrition m items).totalNutrition = true) := by
  constructor
  · intro m i o
    cases o <;>
      simp [processIngredient, processBody, noNaNFields, nanFixNutrition,
        nanFix_isNaN_false]
  · intro m items
    simp [calculateNutrition, noNaNTotals, nanFixNutrition, nanFix_isNaN_false]

/-- C9: an exception raised while processing one ingredient (modelled by
a throwing mapping outcome) is captured in that ingredient's own record -
`error` set to the message, `nutrition` null - while every other
ingredient's record is still produced in place; the aggregation function
is total, so nothing propagates to the caller. -/
theorem C9_theorem (m : Measurements) (pre post : List (Ingredient × MapOutcome))
    (i : Ingredient) (msg : String) :
    (calculateNutrition m (pre ++ (i, MapOutcome.threw msg) :: post)).processedIngredients
      = (pre.map fun p => processIngredient m p.1 p.2)
        ++ ⟨i.name, none, qtyOf i, JSNum.num 0, none, some msg⟩
          :: (post.map fun p => processIngredient m p.1 p.2)
    ∧ (calculateNutrition m (pre ++ (i, MapOutcome.threw msg) :: post)).processedIngredients.length
        = pre.length + 1 + post.length
    ∧ processBody m i (MapOutcome.threw msg) = Except.error msg := by
  refine ⟨?_, ?_, rfl⟩
  · simp [calculateNutrition, processIngredient, processBody]
  · simp [calculateNutrition]
    ring

/- ## C5: aggregation totals -/

/-- All five nutrient fields of a `Nutrition` record are finite
rationals. -/
def ratNutrition (nu : Nutrition) : Bool :=
  nu.calories.isRat && nu.protein.isRat && nu.carbs.isRat &&
  nu.fat.isRat && nu.fiber.isRat

/-- Every populated `nutrition` field in the list consists of finite
rationals. -/
def allRatNutrition (l : List ProcessedIngredient) : Bool :=
  l.all (fun p =>
    match p.nutrition with
    | none => true
    | some nu => ratNutrition nu)

lemma foldl_totStep_field (f : Nutrition → JSNum)
    (hf : ∀ (acc : Nutrition × JSNum) (p : ProcessedIngredient) (nu : Nutrition),
        p.nutrition = some nu → f (totStep acc p).1 = (f acc.1).add (f nu))
    (hf2 : ∀ (acc : Nutrition × JSNum) (p : ProcessedIngredient),
        p.nutrition = none → f (totStep acc p).1 = f acc.1) :
    ∀ (l : List ProcessedIngredient) (acc : Nutrition × JSNum),
      f (l.foldl totStep acc).1 = (resolvedField f l).foldl JSNum.add (f acc.1) := by
  intro l
  induction l with
  | nil => intro acc; rfl
  | cons p t ih =>
      intro acc
      cases hp : p.nutrition with
      | none =>
          rw [List.foldl_cons, ih]
          rw [show f (totStep acc p).1 = f acc.1 from hf2 acc p hp]
          simp [resolvedField, List.filterMap_cons, hp]
      | some nu =>
          rw [List.foldl_cons, ih]
          rw [show f (totStep acc p).1 = (f acc.1).add (f nu) from hf acc p nu hp]
          simp [resolvedField, List.filterMap_cons, hp]

lemma foldl_totStep_weight :
    ∀ (l : List ProcessedIngredient) (acc : Nutrition × JSNum),
      (l.foldl totStep acc).2 = (resolvedWeights l).foldl JSNum.add acc.2 := by
  intro l
  induction l with
  | nil => intro acc; rfl
  | cons p t ih =>
      intro acc
      cases hp : p.nutrition with
      | none =>
          rw [List.foldl_cons, ih]
          rw [show (totStep acc p).2 = acc.2 from by simp [totStep, hp]]
          simp [resolvedWeights, List.filter_cons, hp]
      | some nu =>
          rw [List.foldl_cons, ih]
          rw [show (totStep acc p).2 = acc.2.add p.weight_g from by simp [totStep, hp]]
          simp [resolvedWeights, List.filter_cons, hp]

lemma allRat_resolvedField (l : List ProcessedIngredient) (f : Nutrition → JSNum)
    (h : allRatNutrition l = true)
    (hf : ∀ nu : Nutrition, ratNutrition nu = true → (f nu).isRat = true) :
    ∀ x ∈ resolvedField f l, x.isRat = true := by
  intro x hx
  obtain ⟨p, hp, heq⟩ := List.mem_filterMap.mp hx
  obtain ⟨nu, hnu, hfnu⟩ := Option.map_eq_some'.mp heq
  have hall := List.all_eq_true.mp h p hp
  rw [hnu] at hall
  exact hfnu ▸ hf nu hall

lemma foldl_insert_notFound (m : Measurements)
    (pre post : List (Ingredient × MapOutcome)) (i : Ingredient)
    (acc : Nutrition × JSNum) :
    ((pre ++ (i, MapOutcome.notFound) :: post).map
        (fun p => processIngredient m p.1 p.2)).foldl totStep acc
      = ((pre ++ post).map (fun p => processIngredient m p.1 p.2)).foldl totStep acc := by
  rw [List.map_append, List.map_cons, List.foldl_append, List.foldl_cons,
    List.map_append, List.foldl_append]
  rfl

/-- C5 (amended): the totals are built from exactly the
`ProcessedIngredient`s whose `nutrition` is non-null - the five nutrient
totals equal the NaN-guarded sums over those records (exact sums when the
per-ingredient fields are finite rationals), the total weight always
equals the sum of those records' weights, and inserting an unresolved
ingredient anywhere leaves every total field unchanged (it contributes
exactly 0). -/
theorem C5_amended (m : Measurements) (items : List (Ingredient × MapOutcome))
    (pre post : List (Ingredient × MapOutcome)) (i : Ingredient)
    (h : allRatNutrition (calculateNutrition m items).processedIngredients = true) :
    (calculateNutrition m items).totalNutrition
      = ⟨sumJS (resolvedField (fun nu => nu.calories)
            (calculateNutrition m items).processedIngredients),
         sumJS (resolvedField (fun nu => nu.protein)
            (calculateNutrition m items).processedIngredients),
         sumJS (resolvedField (fun nu => nu.carbs)
            (calculateNutrition m items).processedIngredients),
         sumJS (resolvedField (fun nu => nu.fat)
            (calculateNutrition m items).processedIngredients),
         sumJS (resolvedField (fun nu => nu.fiber)
            (calculateNutrition m items).processedIngredients)⟩
    ∧ (calculateNutrition m items).totalWeightInGrams
        = sumJS (resolvedWeights (calculateNutrition m items).processedIngredients)
    ∧ (calculateNutrition m (pre ++ (i, MapOutcome.notFound) :: post)).totalNutrition
        = (calculateNutrition m (pre ++ post)).totalNutrition
    ∧ (calculateNutrition m (pre ++ (i, MapOutcome.notFound) :: post)).totalWeightInGrams
        = (calculateNutrition m (pre ++ post)).totalWeightInGrams := by
  have hcal : ∀ (acc : Nutrition × JSNum) (p : ProcessedIngredient) (nu : Nutrition),
      p.nutrition = some nu →
        (totStep acc p).1.calories = (acc.1.calories).add nu.calories := by
    intro acc p nu hp; simp [totStep, hp]
  have hcal2 : ∀ (acc : Nutrition × JSNum) (p : ProcessedIngredient),
      p.nutrition = none → (totStep acc p).1.calories = acc.1.calories := by
    intro acc p hp; simp [totStep, hp]
  have hpro : ∀ (acc : Nutrition × JSNum) (p : ProcessedIngredient) (nu : Nutrition),
      p.nutrition = some nu →
        (totStep acc p).1.protein = (acc.1.protein).add nu.protein := by
    intro acc p nu hp; simp [totStep, hp]
  have hpro2 : ∀ (acc : Nutrition × JSNum) (p : ProcessedIngredient),
      p.nutrition = none → (totStep acc p).1.protein = acc.1.protein := by
    intro acc p hp; simp [totStep, hp]
  have hcar : ∀ (acc : Nutrition × JSNum) (p : ProcessedIngredient) (nu : Nutrition),
      p.nutrition = some nu →
        (totStep acc p).1.carbs = (acc.1.carbs).add nu.carbs := by
    intro acc p nu hp; simp [totStep, hp]
  have hcar2 : ∀ (acc : Nutrition × JSNum) (p : ProcessedIngredient),
      p.nutrition = none → (totStep acc p).1.carbs = acc.1.carbs := by
    intro acc p hp; simp [totStep, hp]
  have hfat : ∀ (acc : Nutrition × JSNum) (p : ProcessedIngredient) (nu : Nutrition),
      p.nutrition = some nu →
        (totStep acc p).1.fat = (acc.1.fat).add nu.fat := by
    intro acc p nu hp; simp [totStep, hp]
  have hfat2 : ∀ (acc : Nutrition × JSNum) (p : ProcessedIngredient),
      p.nutrition = none → (totStep acc p).1.fat = acc.1.fat := by
    intro acc p hp; simp [totStep, hp]
  have hfib : ∀ (acc : Nutrition × JSNum) (p : ProcessedIngredient) (nu : Nutrition),
      p.nutrition = some nu →
        (totStep acc p).1.fiber = (acc.1.fiber).add nu.fiber := by
    intro acc p nu hp; simp [totStep, hp]
  have hfib2 : ∀ (acc : Nutrition × JSNum) (p : ProcessedIngredient),
      p.nutrition = none → (totStep acc p).1.fiber = acc.1.fiber := by
    intro acc p hp; simp [totStep, hp]
  have hratc : ∀ nu : Nutrition, ratNutrition nu = true → nu.calories.isRat = true := by
    intro nu hnu; simp [ratNutrition] at hnu
    obtain ⟨⟨⟨⟨h1, h2⟩, h3⟩, h4⟩, h5⟩ := hnu; exact h1
  have hratp : ∀ nu : Nutrition, ratNutrition nu = true → nu.protein.isRat = true := by
    intro nu hnu; simp [ratNutrition] at hnu
    obtain ⟨⟨⟨⟨h1, h2⟩, h3⟩, h4⟩, h5⟩ := hnu; exact h2
  have hratcb : ∀ nu : Nutrition, ratNutrition nu = true → nu.carbs.isRat = true := by
    intro nu hnu; simp [ratNutrition] at hnu
    obtain ⟨⟨⟨⟨h1, h2⟩, h3⟩, h4⟩, h5⟩ := hnu; exact h3
  have hratf : ∀ nu : Nutrition, ratNutrition nu = true → nu.fat.isRat = true := by
    intro nu hnu; simp [ratNutrition] at hnu
    obtain ⟨⟨⟨⟨h1, h2⟩, h3⟩, h4⟩, h5⟩ := hnu; exact h4
  have hratfb : ∀ nu : Nutrition, ratNutrition nu = true → nu.fiber.isRat = true := by
    intro nu hnu; simp [ratNutrition] at hnu
    obtain ⟨⟨⟨⟨h1, h2⟩, h3⟩, h4⟩, h5⟩ := hnu; exact h5
  refine ⟨?_, ?_, ?_, ?_⟩
  · rw [show (calculateNutrition m items).totalNutrition
        = nanFixNutrition ((calculateNutrition m items).processedIngredients.foldl
            totStep (⟨JSNum.num 0, JSNum.num 0, JSNum.num 0, JSNum.num 0,
              JSNum.num 0⟩, JSNum.num 0)).1 from rfl]
    rw [nanFixNutrition, Nutrition.mk.injEq]
    refine ⟨?_, ?_, ?_, ?_, ?_⟩
    · rw [foldl_totStep_field _ hcal hcal2]
      exact nanFix_of_rat _ (sumJS_rat _ (allRat_resolvedField _ _ h hratc))
    · rw [foldl_totStep_field _ hpro hpro2]
      exact nanFix_of_rat _ (sumJS_rat _ (allRat_resolvedField _ _ h hratp))
    · rw [foldl_totStep_field _ hcar hcar2]
      exact nanFix_of_rat _ (sumJS_rat _ (allRat_resolvedField _ _ h hratcb))
    · rw [foldl_totStep_field _ hfat hfat2]
      exact nanFix_of_rat _ (sumJS_rat _ (allRat_resolvedField _ _ h hratf))
    · rw [foldl_totStep_field _ hfib hfib2]
      exact nanFix_of_rat _ (sumJS_rat _ (allRat_resolvedField _ _ h hratfb))
  · exact foldl_totStep_weight _ _
  · exact congrArg (fun t => nanFixNutrition t.1) (foldl_insert_notFound m pre post i _)
  · exact congrArg (fun t => t.2) (foldl_insert_notFound m pre post i _)

/-- Two ingredients whose "1/0 cup" phrases give +Infinity weights, one
with a negative calories cell: their scaled calories are +Infinity and
-Infinity. -/
def itemsC5 : List (Ingredient × MapOutcome) :=
  [(⟨"a", "1/0 cup", none⟩, MapOutcome.found oilRec),
   (⟨"b", "1/0 cup", none⟩, MapOutcome.found negCalRec)]

/-- C5 (counterexample): with per-ingredient calories +Infinity and
-Infinity (both records have non-null nutrition), the sum over the
resolved records is NaN but the reported calories total is 0 (the final
NaN-guard), so the totals do not equal that sum. -/
theorem C5_counterexample :
    (calculateNutrition specMeasurements itemsC5).totalNutrition.calories
      = JSNum.num 0
    ∧ sumJS (resolvedField (fun nu => nu.calories)
        (calculateNutrition specMeasurements itemsC5).processedIngredients)
      = JSNum.nan
    ∧ JSNum.num 0 ≠ JSNum.nan := by
  refine ⟨by decide, by decide, by decide⟩

/-- A plain nutrition row for the witness. -/
def potatoRec : NutritionRecord := ⟨"potato", "77", "2", "17", "0.1", "2.2"⟩

/-- A one-ingredient list with finite nutrition values. -/
def itemsC5W : List (Ingredient × MapOutcome) :=
  [(⟨"potato", "2 piece", none⟩, MapOutcome.found potatoRec)]

/-- C5 (witness): the amended theorem applied to a concrete list. -/
theorem C5_witness :
    allRatNutrition
        ((calculateNutrition specMeasurements itemsC5W).processedIngredients) = true
    ∧ (calculateNutrition specMeasurements itemsC5W).totalWeightInGrams
        = sumJS (resolvedWeights
            (calculateNutrition specMeasurements itemsC5W).processedIngredients) :=
  ⟨by decide,
   (C5_amended specMeasurements itemsC5W [] [] ⟨"x", "1 cup", none⟩ (by decide)).2.1⟩

/- ## C8: resolution of canonical names -/

lemma dropWhile_ws_id (l : List Char) (h : ∀ c ∈ l, isSpaceJS c = false) :
    l.dropWhile isSpaceJS = l := by
  cases l with
  | nil => rfl
  | cons c t => simp [List.dropWhile_cons, h c (by simp)]

lemma jsTrim_id (l : List Char) (h : ∀ c ∈ l, isSpaceJS c = false) :
    jsTrim l = l := by
  unfold jsTrim
  rw [dropWhile_ws_id l h,
    dropWhile_ws_id l.reverse (fun c hc => h c (List.mem_reverse.mp hc)),
    List.reverse_reverse]

lemma underscoreWsAux_id (b : Bool) (l : List Char)
    (h : ∀ c ∈ l, isSpaceJS c = false) : underscoreWsAux b l = l := by
  induction l generalizing b with
  | nil => rfl
  | cons c t ih =>
      simp [underscoreWsAux, h c (by simp), ih _ (fun x hx => h x (by simp [hx]))]

lemma underscoreWs_id (l : List Char) (h : ∀ c ∈ l, isSpaceJS c = false) :
    underscoreWs l = l :=
  underscoreWsAux_id false l h

lemma mk_toList (s : String) : String.mk s.toList = s := rfl

/-- C8 (amended): resolution returns the exact canonical name for every
table entry that the normalization step leaves untouched - a nonempty,
whitespace-free name that is a fixed point of `preprocessIngredientName`
(in particular the underscored lowercase names, since the word-boundary
`\b` does not fire inside `_`); for other canonical names the
normalization can strip modifiers and resolution may return a different
entry. -/
theorem C8_amended (db : List NutritionRecord) (syn : List (String × String))
    (ai : Option String) (c : String)
    (h0 : c ≠ "")
    (h1 : preprocessIngredientName c = c)
    (h2 : ∀ ch ∈ c.toList, isSpaceJS ch = false)
    (h3 : (findInNutritionDB db c).isSome = true) :
    standardizeIngredientName db syn ai c = some c := by
  unfold standardizeIngredientName
  rw [if_neg h0]
  simp only [h1, jsTrimS, jsTrim_id c.toList h2, mk_toList,
    underscoreWs_id c.toList h2, h3, if_neg h0, if_true]

/-- A reference table holding both a modified and a base form. -/
def dbC8 : List NutritionRecord :=
  [⟨"fresh cream", "195", "2", "4", "19", "0"⟩,
   ⟨"cream", "195", "2", "4", "19", "0"⟩]

/-- C8 (counterexample): "fresh cream" is a canonical name present in the
table, but resolving it strips the modifier "fresh" and returns the other
entry "cream", so resolution is not the identity on canonical names. -/
theorem C8_counterexample :
    (findInNutritionDB dbC8 "fresh cream").isSome = true
    ∧ standardizeIngredientName dbC8 [] none "fresh cream" = some "cream"
    ∧ some "cream" ≠ some "fresh cream" := by
  refine ⟨by decide, by decide, by decide⟩

/-- A one-row reference table for the witness. -/
def dbC8W : List NutritionRecord := [⟨"paneer", "265", "18", "1.2", "20", "0"⟩]

/-- C8 (witness): the amended theorem applied to the concrete canonical
name "paneer". -/
theorem C8_witness :
    preprocessIngredientName "paneer" = "paneer"
    ∧ standardizeIngredientName dbC8W [] none "paneer" = some "paneer" :=
  ⟨by decide,
   C8_amended dbC8W [] none "paneer" (by decide) (by decide) (by decide)
     (by decide)⟩

/- ## C7: literal-gram phrases -/

lemma takeWhile_digits (d : List Char) (r : Char) (t : List Char)
    (hd : ∀ c ∈ d, c.isDigit = true) (hr : r.isDigit = false) :
    (d ++ r :: t).takeWhile Char.isDigit = d
    ∧ (d ++ r :: t).dropWhile Char.isDigit = r :: t := by
  induction d with
  | nil => simp [List.takeWhile_cons, List.dropWhile_cons, hr]
  | cons a dt ih =>
      have ha : a.isDigit = true := hd a (by simp)
      have ih' := ih (fun c hc => hd c (by simp [hc]))
      simp [List.takeWhile_cons, List.dropWhile_cons, ha, ih'.1, ih'.2]

lemma isEmpty_false_of_ne {d : List Char} (hne : d ≠ []) : d.isEmpty = false := by
  cases d with
  | nil => exact absurd rfl hne
  | cons a t => rfl

lemma numTok_int (d : List Char) (r : Char) (t : List Char) (hne : d ≠ [])
    (hd : ∀ c ∈ d, c.isDigit = true) (hr : r.isDigit = false) (hr2 : r ≠ '.') :
    numTok (d ++ r :: t) = some ((digitsVal d : ℚ), r :: t) := by
  have h := takeWhile_digits d r t hd hr
  simp only [numTok, h.1, h.2, isEmpty_false_of_ne hne, Bool.false_eq_true,
    if_false]
  split
  · next rest2 heq =>
      exfalso
      apply hr2
      injection heq
  · rfl

lemma numTok_frac (d f : List Char) (r : Char) (t : List Char)
    (hne : d ≠ []) (hfne : f ≠ [])
    (hd : ∀ c ∈ d, c.isDigit = true) (hf : ∀ c ∈ f, c.isDigit = true)
    (hr : r.isDigit = false) :
    numTok (d ++ '.' :: (f ++ r :: t))
      = some (qAdd (digitsVal d : ℚ)
          (qDiv (digitsVal f : ℚ) (qPowNat 10 f.length)), r :: t) := by
  have h1' := takeWhile_digits d '.' (f ++ r :: t) hd (by decide)
  have h2' := takeWhile_digits f r t hf hr
  simp only [numTok, h1'.1, h1'.2, isEmpty_false_of_ne hne, Bool.false_eq_true,
    if_false, h2'.1, h2'.2, isEmpty_false_of_ne hfne]

lemma scanFirst_here {α : Type} (p : List Char → Option α) (c : Char)
    (cs : List Char) (a : α) (h : p (c :: cs) = some a) :
    scanFirst p (c :: cs) = some a := by
  unfold scanFirst
  rw [h]

lemma startsWithL_mem (n : List Char) :
    ∀ hay : List Char, startsWithL n hay = true → ∀ c ∈ n, c ∈ hay := by
  induction n with
  | nil => intro hay _ c hc; cases hc
  | cons a n' ih =>
      intro hay h c hc
      cases hay with
      | nil => simp [startsWithL] at h
      | cons b t =>
          simp only [startsWithL, Bool.and_eq_true, decide_eq_true_eq] at h
          rcases List.mem_cons.mp hc with h1 | h2
          · exact List.mem_cons.mpr (Or.inl (h1.trans h.1))
          · exact List.mem_cons.mpr (Or.inr (ih t h.2 c h2))

lemma containsSub_singleton (c : Char) (hay : List Char) (h : c ∈ hay) :
    containsSub [c] hay = true := by
  induction hay with
  | nil => cases h
  | cons b t ih =>
      rcases List.mem_cons.mp h with h1 | h2
      · subst h1
        simp [containsSub, startsWithL]
      · simp [containsSub, ih h2]

lemma containsSub_neg (n hay : List Char) (c : Char) (hcn : c ∈ n)
    (hch : c ∉ hay) : containsSub n hay = false := by
  induction hay with
  | nil =>
      cases n with
      | nil => cases hcn
      | cons a t => rfl
  | cons b t ih =>
      have hnt : c ∉ t := fun hmem => hch (List.mem_cons.mpr (Or.inr hmem))
      cases hs : startsWithL n (b :: t) with
      | true => exact absurd (startsWithL_mem n (b :: t) hs c hcn) hch
      | false => simp [containsSub, hs, ih hnt]

/-- C7: for every decimal numeral token (digits with an optional
fractional part), parsing the phrase "<n> g" yields exactly
`{value: n, unit: "g"}`, and standardizing the same phrase returns
exactly `n` grams for every conversion table and ingredient name. -/
theorem C7_theorem (d f : List Char) (m : Measurements) (name : Option String)
    (hne : d ≠ []) (h1 : ∀ c ∈ d, c.isDigit = true)
    (h2 : ∀ c ∈ f, c.isDigit = true) :
    parseQuantityS (String.mk
        (d ++ (if f.isEmpty then [] else '.' :: f) ++ [' ', 'g']))
      = ⟨JSNum.num ((digitsVal d : ℚ) + (digitsVal f : ℚ) / 10 ^ f.length),
         some "g"⟩
    ∧ standardizeToGrams m (String.mk
        (d ++ (if f.isEmpty then [] else '.' :: f) ++ [' ', 'g'])) name
      = JSNum.num ((digitsVal d : ℚ) + (digitsVal f : ℚ) / 10 ^ f.length) := by
  obtain ⟨d0, dt, rfl⟩ : ∃ d0 dt, d = d0 :: dt := by
    cases d with
    | nil => exact absurd rfl hne
    | cons a t => exact ⟨a, t, rfl⟩
  set q : ℚ := (digitsVal (d0 :: dt) : ℚ) + (digitsVal f : ℚ) / 10 ^ f.length
    with hq
  set L : List Char :=
    (d0 :: dt) ++ (if f.isEmpty then [] else '.' :: f) ++ [' ', 'g'] with hL
  have hLcons : L = d0 :: ((dt ++ (if f.isEmpty then [] else '.' :: f))
      ++ [' ', 'g']) := by
    simp [hL]
  have hmem : ∀ c ∈ L, c.isDigit = true ∨ c = '.' ∨ c = ' ' ∨ c = 'g' := by
    intro c hc
    rw [hL] at hc
    rcases List.mem_append.mp hc with hc1 | hc2
    · rcases List.mem_append.mp hc1 with hc3 | hc4
      · exact Or.inl (h1 c hc3)
      · by_cases hfe : f.isEmpty = true
        · rw [if_pos hfe] at hc4; cases hc4
        · rw [if_neg hfe] at hc4
          rcases List.mem_cons.mp hc4 with h5 | h5
          · exact Or.inr (Or.inl h5)
          · exact Or.inl (h2 c h5)
    · rcases List.mem_cons.mp hc2 with h5 | h5
      · exact Or.inr (Or.inr (Or.inl h5))
      · exact Or.inr (Or.inr (Or.inr (by simpa using h5)))
  have hnoL : 'l' ∉ L := by
    intro hcl
    rcases hmem 'l' hcl with hdig | h | h | h
    · exact absurd hdig (by decide)
    · exact absurd h (by decide)
    · exact absurd h (by decide)
    · exact absurd h (by decide)
  have hgmem : 'g' ∈ L := by
    rw [hL]
    exact List.mem_append.mpr (Or.inr (by simp))
  have htokG : matchTokG L = some q := by
    cases hfe : f.isEmpty with
    | true =>
        have hf0 : f = [] := by
          cases f with
          | nil => rfl
          | cons a t => simp at hfe
        subst hf0
        have hnum := numTok_int (d0 :: dt) ' ' ['g'] (by simp) h1 (by decide)
          (by decide)
        rw [hL]
        simp only [List.isEmpty_nil, if_true, List.append_nil]
        rw [show ((d0 :: dt) ++ [' ', 'g']) = ((d0 :: dt) ++ (' ' :: ['g']))
          from rfl]
        simp only [matchTokG, hnum]
        rw [hq]
        simp only [digitsVal, List.foldl_nil, List.length_nil, pow_zero,
          Nat.cast_zero, zero_div, add_zero]
        rfl
    | false =>
        have hfne : f ≠ [] := by
          cases f with
          | nil => simp at hfe
          | cons a t => simp
        have hnum := numTok_frac (d0 :: dt) f ' ' ['g'] (by simp) hfne h1 h2
          (by decide)
        rw [hL]
        simp only [hfe, Bool.false_eq_true, if_false]
        rw [show ((d0 :: dt) ++ '.' :: f ++ [' ', 'g'])
            = ((d0 :: dt) ++ '.' :: (f ++ (' ' :: ['g']))) from by simp]
        simp only [matchTokG, hnum]
        rw [hq, qAdd_eq, qDiv_eq, qPowNat_eq]
        rfl
  have hscan : scanFirst matchTokG L = some q := by
    rw [hLcons]
    exact scanFirst_here matchTokG d0 _ q (hLcons ▸ htokG)
  have hsneq : String.mk L ≠ "" := by
    rw [hLcons]
    intro hcontra
    have h' : (d0 :: ((dt ++ (if f.isEmpty then [] else '.' :: f))
        ++ [' ', 'g'])) = ([] : List Char) := congrArg String.data hcontra
    exact List.cons_ne_nil _ _ h'
  have hbranch : branchGrams (String.mk L) = some ⟨JSNum.num q, some "g"⟩ := by
    have hsub : substr "g" (String.mk L) = true :=
      containsSub_singleton 'g' L hgmem
    have hsub2 : substr "glass" (String.mk L) = false :=
      containsSub_neg _ L 'l' (by decide) hnoL
    simp only [branchGrams, hsub, hsub2, Bool.not_false, Bool.and_self, if_true]
    rw [show (String.mk L).toList = L from rfl, hscan]
    rfl
  constructor
  · simp only [parseQuantityS, parseQuantityVal, jsValFalsy, jsValIsString,
      Bool.not_true, Bool.or_false]
    rw [if_neg (by simpa using hsneq)]
    simp only [parseQuantityStr, hbranch]
  · simp only [standardizeToGrams, parseQuantityS, parseQuantityVal, jsValFalsy,
      jsValIsString, Bool.not_true, Bool.or_false]
    rw [if_neg (by simpa using hsneq)]
    simp only [parseQuantityStr, hbranch]
    rfl

/-- C7 (witness): the theorem applied to the concrete phrase "7.5 g". -/
theorem C7_witness :
    parseQuantityS (String.mk ['7', '.', '5', ' ', 'g'])
      = ⟨JSNum.num ((digitsVal ['7'] : ℚ) + (digitsVal ['5'] : ℚ) / 10 ^ 1),
         some "g"⟩
    ∧ standardizeToGrams specMeasurements (String.mk ['7', '.', '5', ' ', 'g'])
        none
      = JSNum.num ((digitsVal ['7'] : ℚ) + (digitsVal ['5'] : ℚ) / 10 ^ 1) :=
  C7_theorem ['7'] ['5'] specMeasurements none (by decide) (by decide)
    (by decide)

/- ## C3: standardizeToGrams never returns a negative number -/

lemma nonneg_add_num {x : JSNum} {b : ℚ} (hx : x.nonneg = true) (hb : 0 ≤ b) :
    (x.add (JSNum.num b)).nonneg = true := by
  cases x with
  | nan => rfl
  | inf => rfl
  | ninf => simp [JSNum.nonneg] at hx
  | num a =>
      simp only [JSNum.nonneg, decide_eq_true_eq] at hx
      simp only [JSNum.add, JSNum.nonneg, qAdd_eq, decide_eq_true_eq]
      linarith

lemma nonneg_div_pos {x : JSNum} {b : ℚ} (hx : x.nonneg = true) (hb : 0 < b) :
    (x.div (JSNum.num b)).nonneg = true := by
  cases x with
  | nan => rfl
  | inf => simp [JSNum.div, JSNum.nonneg, hb.le]
  | ninf => simp [JSNum.nonneg] at hx
  | num a =>
      simp only [JSNum.nonneg, decide_eq_true_eq] at hx
      rw [JSNum.div, if_neg hb.ne']
      simp only [JSNum.nonneg, decide_eq_true_eq, qDiv_eq]
      positivity

lemma nonneg_mul_num {x : JSNum} {b : ℚ} (hx : x.nonneg = true) (hb : 0 ≤ b) :
    (x.mul (JSNum.num b)).nonneg = true := by
  cases x with
  | nan => rfl
  | inf =>
      rw [JSNum.mul]
      split_ifs with h1 h2
      · rfl
      · rfl
      · exact absurd (lt_of_le_of_ne hb (Ne.symm h1)) h2
  | ninf => simp [JSNum.nonneg] at hx
  | num a =>
      simp only [JSNum.nonneg, decide_eq_true_eq] at hx
      simp only [JSNum.mul, JSNum.nonneg, decide_eq_true_eq, qMul_eq]
      exact mul_nonneg hx hb

lemma jsDivNat_nonneg (n d : ℕ) : (jsDivNat n d).nonneg = true := by
  unfold jsDivNat
  split_ifs with h1 h2
  · rfl
  · rfl
  · simp only [JSNum.nonneg, decide_eq_true_eq, qDiv_eq]
    positivity

lemma numTok_nonneg : ∀ (cs : List Char) (q : ℚ) (rest : List Char),
    numTok cs = some (q, rest) → 0 ≤ q := by
  intro cs q rest h
  simp only [numTok] at h
  by_cases hie : (cs.takeWhile Char.isDigit).isEmpty = true
  · rw [if_pos hie] at h; cases h
  · rw [if_neg hie] at h
    split at h
    · split at h
      · simp only [Option.some.injEq, Prod.mk.injEq] at h
        rw [← h.1]
        positivity
      · simp only [Option.some.injEq, Prod.mk.injEq] at h
        rw [← h.1, qAdd_eq, qDiv_eq, qPowNat_eq]
        positivity
    · simp only [Option.some.injEq, Prod.mk.injEq] at h
      rw [← h.1]
      positivity

lemma applyExp_nonneg {q : ℚ} (hq : 0 ≤ q) (rest : List Char) :
    (applyExp q rest).nonneg = true := by
  have hnum : (JSNum.num q).nonneg = true := by simp [JSNum.nonneg, hq]
  have hdivcase : ∀ e : List Char,
      (if e.isEmpty = true then JSNum.num q
       else JSNum.num (qDiv q (qPowNat 10 (digitsVal e)))).nonneg = true := by
    intro e
    split_ifs
    · exact hnum
    · simp only [JSNum.nonneg, decide_eq_true_eq, qDiv_eq, qPowNat_eq]
      positivity
  have hmulcase : ∀ e : List Char,
      (if e.isEmpty = true then JSNum.num q
       else JSNum.num (qMul q (qPowNat 10 (digitsVal e)))).nonneg = true := by
    intro e
    split_ifs
    · exact hnum
    · simp only [JSNum.nonneg, decide_eq_true_eq, qMul_eq, qPowNat_eq]
      exact mul_nonneg hq (by positivity)
  unfold applyExp
  split
  · split
    · exact hdivcase _
    · exact hmulcase _
    · exact hmulcase _
  · split
    · exact hdivcase _
    · exact hmulcase _
    · exact hmulcase _
  · exact hnum

lemma parsePos_nonneg (cs : List Char) : (parsePos cs).nonneg = true := by
  simp only [parsePos]
  by_cases h1 : startsWithL ['I', 'n', 'f', 'i', 'n', 'i', 't', 'y'] cs = true
  · rw [if_pos h1]; rfl
  · rw [if_neg h1]
    split
    · split_ifs
      · rfl
      · apply applyExp_nonneg
        rw [qAdd_eq, qDiv_eq, qPowNat_eq]
        positivity
    · split_ifs
      · rfl
      · exact applyExp_nonneg (by positivity) _

lemma mem_of_mem_dropWhile {p : Char → Bool} {c : Char} :
    ∀ l : List Char, c ∈ l.dropWhile p → c ∈ l := by
  intro l
  induction l with
  | nil => intro h; exact h
  | cons a t ih =>
      intro h
      rw [List.dropWhile_cons] at h
      by_cases hpa : p a = true
      · rw [if_pos hpa] at h
        exact List.mem_cons.mpr (Or.inr (ih h))
      · rw [if_neg hpa] at h
        exact h

lemma mem_of_mem_jsTrim {c : Char} (l : List Char) (h : c ∈ jsTrim l) :
    c ∈ l := by
  unfold jsTrim at h
  have h1 := List.mem_reverse.mp h
  have h2 := mem_of_mem_dropWhile _ h1
  have h3 := List.mem_reverse.mp h2
  exact mem_of_mem_dropWhile _ h3

lemma jsParseFloat_nonneg (cs : List Char) (h : '-' ∉ cs) :
    (jsParseFloat cs).nonneg = true := by
  simp only [jsParseFloat]
  split
  · next rest heq =>
      exfalso
      apply h
      exact mem_of_mem_dropWhile cs (heq ▸ List.mem_cons_self '-' rest)
  · exact parsePos_nonneg _
  · exact parsePos_nonneg _

lemma charSplit_ne_nil (sep : Char) : ∀ l : List Char, charSplit sep l ≠ [] := by
  intro l
  cases l with
  | nil => simp [charSplit]
  | cons c t =>
      unfold charSplit
      split_ifs
      · simp
      · split <;> simp

lemma charSplit_not_mem (sep : Char) :
    ∀ (l : List Char) (piece : List Char), piece ∈ charSplit sep l →
      sep ∉ piece := by
  intro l
  induction l with
  | nil =>
      intro piece hp
      simp only [charSplit, List.mem_singleton] at hp
      subst hp
      simp
  | cons c t ih =>
      intro piece hp
      unfold charSplit at hp
      by_cases hcs : c = sep
      · rw [if_pos hcs] at hp
        rcases List.mem_cons.mp hp with h1 | h2
        · subst h1; simp
        · exact ih piece h2
      · rw [if_neg hcs] at hp
        cases hsplit : charSplit sep t with
        | nil => exact absurd hsplit (charSplit_ne_nil sep t)
        | cons hd r =>
            rw [hsplit] at hp
            rcases List.mem_cons.mp hp with h1 | h2
            · subst h1
              intro hmem
              rcases List.mem_cons.mp hmem with h3 | h4
              · exact hcs h3.symm
              · exact ih hd (hsplit ▸ List.mem_cons_self hd r) h4
            · exact ih piece (hsplit ▸ List.mem_cons.mpr (Or.inr h2))

lemma charSplit_getD_not_mem (sep : Char) (l : List Char) (i : ℕ) :
    sep ∉ (charSplit sep l).getD i [] := by
  cases hg : (charSplit sep l)[i]? with
  | none => simp [List.getD, hg]
  | some piece =>
      have hmem := charSplit_not_mem sep l piece (List.getElem?_mem hg)
      simp [List.getD, hg, hmem]

lemma scanFirst_prop {α : Type} (p : List Char → Option α) (P : α → Prop)
    (hp : ∀ cs a, p cs = some a → P a) :
    ∀ (l : List Char) (a : α), scanFirst p l = some a → P a := by
  intro l
  induction l with
  | nil => intro a h; exact hp [] a h
  | cons c t ih =>
      intro a h
      unfold scanFirst at h
      cases hc : p (c :: t) with
      | some b =>
          rw [hc] at h
          cases h
          exact hp _ _ hc
      | none =>
          rw [hc] at h
          exact ih a h

lemma matchTokG_nonneg : ∀ (cs : List Char) (q : ℚ),
    matchTokG cs = some q → 0 ≤ q := by
  intro cs q h
  cases hn : numTok cs with
  | none =>
      simp only [matchTokG, hn] at h
      exact Option.noConfusion h
  | some pr =>
      obtain ⟨q0, rest⟩ := pr
      simp only [matchTokG, hn] at h
      split at h
      · cases h
        exact numTok_nonneg cs q rest hn
      · cases h

lemma matchTokPound_nonneg : ∀ (cs : List Char) (q : ℚ),
    matchTokPound cs = some q → 0 ≤ q := by
  intro cs q h
  cases hn : numTok cs with
  | none =>
      simp only [matchTokPound, hn] at h
      exact Option.noConfusion h
  | some pr =>
      obtain ⟨q0, rest⟩ := pr
      simp only [matchTokPound, hn] at h
      split_ifs at h
      cases h
      exact numTok_nonneg cs q rest hn

lemma matchTokMl_nonneg : ∀ (cs : List Char) (q : ℚ),
    matchTokMl cs = some q → 0 ≤ q := by
  intro cs q h
  cases hn : numTok cs with
  | none =>
      simp only [matchTokMl, hn] at h
      exact Option.noConfusion h
  | some pr =>
      obtain ⟨q0, rest⟩ := pr
      simp only [matchTokMl, hn] at h
      split_ifs at h
      cases h
      exact numTok_nonneg cs q rest hn

lemma matchTokNum_nonneg : ∀ (cs : List Char) (q : ℚ),
    matchTokNum cs = some q → 0 ≤ q := by
  intro cs q h
  cases hn : numTok cs with
  | none =>
      simp only [matchTokNum, hn, Option.map_none'] at h
      exact Option.noConfusion h
  | some pr =>
      obtain ⟨q0, rest⟩ := pr
      simp only [matchTokNum, hn, Option.map_some'] at h
      cases h
      exact numTok_nonneg cs q rest hn

lemma matchTokGeneral_nonneg : ∀ (cs : List Char) (pr : ℚ × List Char),
    matchTokGeneral cs = some pr → 0 ≤ pr.1 := by
  intro cs pr h
  cases hn : numTok cs with
  | none =>
      simp only [matchTokGeneral, hn] at h
      exact Option.noConfusion h
  | some pr0 =>
      obtain ⟨q0, rest⟩ := pr0
      simp only [matchTokGeneral, hn] at h
      split_ifs at h
      cases h
      exact numTok_nonneg cs q0 rest hn

lemma branchGrams_nonneg (s : String) (r : ParsedQuantity)
    (h : branchGrams s = some r) : r.value.nonneg = true := by
  simp only [branchGrams] at h
  split_ifs at h
  cases hs : scanFirst matchTokG s.toList with
  | none => rw [hs, Option.map_none'] at h; cases h
  | some q =>
      rw [hs, Option.map_some'] at h
      have hq : 0 ≤ q :=
        scanFirst_prop matchTokG (fun x => 0 ≤ x) matchTokG_nonneg s.toList q hs
      cases h
      simp [JSNum.nonneg, hq]

lemma branchPound_nonneg (s : String) (r : ParsedQuantity)
    (h : branchPound s = some r) : r.value.nonneg = true := by
  simp only [branchPound] at h
  split_ifs at h
  cases hs : scanFirst matchTokPound s.toList with
  | none => rw [hs, Option.map_none'] at h; cases h
  | some q =>
      rw [hs, Option.map_some'] at h
      have hq : 0 ≤ q :=
        scanFirst_prop matchTokPound (fun x => 0 ≤ x) matchTokPound_nonneg
          s.toList q hs
      cases h
      simp only [JSNum.nonneg, decide_eq_true_eq, qMul_eq]
      exact mul_nonneg hq (by decide)

lemma branchMl_nonneg (s : String) (r : ParsedQuantity)
    (h : branchMl s = some r) : r.value.nonneg = true := by
  simp only [branchMl] at h
  split_ifs at h
  cases hs : scanFirst matchTokMl s.toList with
  | none => rw [hs, Option.map_none'] at h; cases h
  | some q =>
      rw [hs, Option.map_some'] at h
      have hq : 0 ≤ q :=
        scanFirst_prop matchTokMl (fun x => 0 ≤ x) matchTokMl_nonneg s.toList q hs
      cases h
      simp [JSNum.nonneg, hq]

lemma branchRange_nonneg (s : String) (r : ParsedQuantity)
    (h : branchRange s = some r) : r.value.nonneg = true := by
  simp only [branchRange] at h
  split_ifs at h
  cases hs : scanFirst matchTokNum ((charSplit '-' s.toList).getD 1 []) with
  | none => rw [hs] at h; cases h
  | some q2 =>
      rw [hs] at h
      have hq2 : 0 ≤ q2 :=
        scanFirst_prop matchTokNum (fun x => 0 ≤ x) matchTokNum_nonneg _ q2 hs
      have hval1 : (jsParseFloat
          (jsTrim ((charSplit '-' s.toList).getD 0 []))).nonneg = true := by
        apply jsParseFloat_nonneg
        intro hmem
        exact charSplit_getD_not_mem '-' s.toList 0 (mem_of_mem_jsTrim _ hmem)
      cases h
      exact nonneg_div_pos (nonneg_add_num hval1 hq2) (by norm_num)

lemma branchFraction_nonneg (s : String) (r : ParsedQuantity)
    (h : branchFraction s = some r) : r.value.nonneg = true := by
  simp only [branchFraction] at h
  split_ifs at h
  cases hs : scanFirst matchTokFrac s.toList with
  | none => rw [hs] at h; cases h
  | some pr =>
      obtain ⟨n, d⟩ := pr
      rw [hs] at h
      cases h
      exact jsDivNat_nonneg n d

lemma branchGeneral_nonneg (s : String) (r : ParsedQuantity)
    (h : branchGeneral s = some r) : r.value.nonneg = true := by
  simp only [branchGeneral] at h
  cases hs : scanFirst matchTokGeneral s.toList with
  | none => rw [hs, Option.map_none'] at h; cases h
  | some pr =>
      rw [hs, Option.map_some'] at h
      have hq : 0 ≤ pr.1 :=
        scanFirst_prop matchTokGeneral (fun x => 0 ≤ x.1) matchTokGeneral_nonneg
          s.toList pr hs
      cases h
      simp [JSNum.nonneg, hq]

lemma branchTaste_nonneg (s : String) (r : ParsedQuantity)
    (h : branchTaste s = some r) : r.value.nonneg = true := by
  simp only [branchTaste] at h
  split_ifs at h
  cases h
  decide

lemma parseQuantity_value_nonneg (s : String) :
    (parseQuantityS s).value.nonneg = true := by
  unfold parseQuantityS parseQuantityVal
  split_ifs
  · rfl
  · show (parseQuantityStr s).value.nonneg = true
    unfold parseQuantityStr
    cases h1 : branchGrams s with
    | some r => exact branchGrams_nonneg s r h1
    | none =>
        cases h2 : branchPound s with
        | some r => exact branchPound_nonneg s r h2
        | none =>
            cases h3 : branchMl s with
            | some r => exact branchMl_nonneg s r h3
            | none =>
                cases h4 : branchRange s with
                | some r => exact branchRange_nonneg s r h4
                | none =>
                    cases h5 : branchFraction s with
                    | some r => exact branchFraction_nonneg s r h5
                    | none =>
                        cases h6 : branchGeneral s with
                        | some r => exact branchGeneral_nonneg s r h6
                        | none =>
                            cases h7 : branchTaste s with
                            | some r => exact branchTaste_nonneg s r h7
                            | none => rfl

lemma nonnegMeas_split (m : Measurements) (h : nonnegMeas m = true) :
    m.measurements.all (fun p =>
      match p.2 with
      | .num q => decide (0 ≤ q)
      | .obj l => l.all (fun e => decide (0 ≤ e.2))) = true
    ∧ m.ingredientCategories.all
        (fun p => p.2.all (fun e => decide (0 ≤ e.2))) = true := by
  unfold nonnegMeas at h
  simp only [Bool.and_eq_true] at h
  exact h

lemma truthyLookup_nonneg (l : List (String × ℚ)) (k : String) (v : ℚ)
    (h : truthyLookup l k = some v)
    (hl : l.all (fun e => decide (0 ≤ e.2)) = true) : 0 ≤ v := by
  cases hf : l.find? (fun p => p.1 = k) with
  | none =>
      simp only [truthyLookup, hf] at h
      exact Option.noConfusion h
  | some p =>
      simp only [truthyLookup, hf] at h
      split_ifs at h
      cases h
      have := List.all_eq_true.mp hl p (List.mem_of_find?_eq_some hf)
      simpa using this

lemma udOf_obj_all (m : Measurements) (u : String) (l : List (String × ℚ))
    (hm : nonnegMeas m = true) (h : udOf m u = some (UnitData.obj l)) :
    l.all (fun e => decide (0 ≤ e.2)) = true := by
  unfold udOf at h
  cases hf : m.measurements.find? (fun p => p.1 = u) with
  | none => rw [hf] at h; cases h
  | some p =>
      rw [hf, Option.map_some'] at h
      have hp2 := Option.some.inj h
      have hall := (nonnegMeas_split m hm).1
      have := List.all_eq_true.mp hall p (List.mem_of_find?_eq_some hf)
      rw [hp2] at this
      simpa using this

lemma udOf_num_nonneg (m : Measurements) (u : String) (q : ℚ)
    (hm : nonnegMeas m = true) (h : udOf m u = some (UnitData.num q)) :
    0 ≤ q := by
  unfold udOf at h
  cases hf : m.measurements.find? (fun p => p.1 = u) with
  | none => rw [hf] at h; cases h
  | some p =>
      rw [hf, Option.map_some'] at h
      have hp2 := Option.some.inj h
      have hall := (nonnegMeas_split m hm).1
      have := List.all_eq_true.mp hall p (List.mem_of_find?_eq_some hf)
      rw [hp2] at this
      simpa using this

lemma objLookup_nonneg (m : Measurements) (u ing : String) (v : ℚ)
    (hm : nonnegMeas m = true) (h : objLookup m u ing = some v) : 0 ≤ v := by
  unfold objLookup at h
  cases hud : udOf m u with
  | none => rw [hud] at h; cases h
  | some ud =>
      rw [hud] at h
      cases ud with
      | num q => cases h
      | obj l => exact truthyLookup_nonneg l ing v h (udOf_obj_all m u l hm hud)

lemma pieceStep_nonneg (m : Measurements) (v : JSNum) (ing : String) (r : JSNum)
    (hm : nonnegMeas m = true) (hv : v.nonneg = true)
    (h : pieceStep m v ing = some r) : r.nonneg = true := by
  unfold pieceStep at h
  cases h1 : objLookup m "piece" ing with
  | some f =>
      rw [h1] at h
      cases h
      exact nonneg_mul_num hv (objLookup_nonneg m "piece" ing f hm h1)
  | none =>
      rw [h1] at h
      cases h2 : objLookup m "piece" "default" with
      | some f =>
          rw [h2] at h
          cases h
          exact nonneg_mul_num hv (objLookup_nonneg m "piece" "default" f hm h2)
      | none => rw [h2] at h; cases h

lemma mediumStep_nonneg (m : Measurements) (v : JSNum) (ing : String)
    (hm : nonnegMeas m = true) (hv : v.nonneg = true) :
    (mediumStep m v ing).nonneg = true := by
  unfold mediumStep
  cases h1 : objLookup m "medium" ing with
  | some f => exact nonneg_mul_num hv (objLookup_nonneg m "medium" ing f hm h1)
  | none => exact nonneg_mul_num hv (by norm_num)

lemma categoryStep_nonneg (m : Measurements) (v : JSNum) (ing : String)
    (unit : Option String) (r : JSNum) (hm : nonnegMeas m = true)
    (hv : v.nonneg = true) (h : categoryStep m v ing unit = some r) :
    r.nonneg = true := by
  cases h1 : truthyStrLookup m.ingredients ing with
  | none =>
      simp only [categoryStep, h1] at h
      exact Option.noConfusion h
  | some cat =>
      simp only [categoryStep, h1] at h
      cases h2 : m.ingredientCategories.find? (fun p => p.1 = cat) with
      | none =>
          simp only [h2] at h
          exact Option.noConfusion h
      | some p =>
          simp only [h2] at h
          cases h3 : truthyLookup p.2 (jsKey unit) with
          | none =>
              simp only [h3, Option.map_none'] at h
              exact Option.noConfusion h
          | some f =>
              simp only [h3, Option.map_some'] at h
              cases h
              have hall := (nonnegMeas_split m hm).2
              have hp := List.all_eq_true.mp hall p (List.mem_of_find?_eq_some h2)
              exact nonneg_mul_num hv
                (truthyLookup_nonneg p.2 (jsKey unit) f h3 (by simpa using hp))

lemma globalStep_nonneg (m : Measurements) (v : JSNum) (ing : String)
    (unit : Option String) (r : JSNum) (hm : nonnegMeas m = true)
    (hv : v.nonneg = true) (h : globalStep m v ing unit = some r) :
    r.nonneg = true := by
  cases unit with
  | none =>
      simp only [globalStep] at h
      exact Option.noConfusion h
  | some u =>
      simp only [globalStep] at h
      split_ifs at h
      cases hud : udOf m u with
      | none =>
          simp only [hud] at h
          exact Option.noConfusion h
      | some ud =>
          cases ud with
          | num q =>
              simp only [hud] at h
              split_ifs at h
              cases h
              exact nonneg_mul_num hv (udOf_num_nonneg m u q hm hud)
          | obj l =>
              simp only [hud] at h
              have hall := udOf_obj_all m u l hm hud
              cases h3 : truthyLookup l ing with
              | some f =>
                  simp only [h3] at h
                  cases h
                  exact nonneg_mul_num hv (truthyLookup_nonneg l ing f h3 hall)
              | none =>
                  simp only [h3] at h
                  cases h4 : truthyLookup l "default" with
                  | some f =>
                      simp only [h4] at h
                      cases h
                      exact nonneg_mul_num hv
                        (truthyLookup_nonneg l "default" f h4 hall)
                  | none =>
                      simp only [h4] at h
                      cases h
                      exact nonneg_mul_num hv (by norm_num)

lemma defaultStep_nonneg (v : JSNum) (unit : Option String)
    (hv : v.nonneg = true) : (defaultStep v unit).nonneg = true := by
  have hd : ∀ p ∈ defaultConversions, 0 ≤ p.2 := by decide
  simp only [defaultStep]
  cases hf : defaultConversions.find? (fun p => p.1 = jsKey unit) with
  | none => exact nonneg_mul_num hv (by norm_num)
  | some p =>
      show (v.mul (JSNum.num (if p.2 = 0 then 10 else p.2))).nonneg = true
      split_ifs
      · exact nonneg_mul_num hv (by norm_num)
      · exact nonneg_mul_num hv (hd p (List.mem_of_find?_eq_some hf))

lemma convertStage3_nonneg (m : Measurements) (v : JSNum) (ing : String)
    (unit : Option String) (hm : nonnegMeas m = true) (hv : v.nonneg = true) :
    (convertStage3 m v ing unit).nonneg = true := by
  unfold convertStage3
  cases hcs : categoryStep m v ing unit with
  | some r => exact categoryStep_nonneg m v ing unit r hm hv hcs
  | none =>
      cases hgs : globalStep m v ing unit with
      | some r => exact globalStep_nonneg m v ing unit r hm hv hgs
      | none => exact defaultStep_nonneg v unit hv

lemma convertStage2_nonneg (m : Measurements) (v : JSNum) (ing : String)
    (unit : Option String) (hm : nonnegMeas m = true) (hv : v.nonneg = true) :
    (convertStage2 m v ing unit).nonneg = true := by
  unfold convertStage2
  split_ifs
  · exact mediumStep_nonneg m v ing hm hv
  · exact convertStage3_nonneg m v ing unit hm hv

lemma convertTail_nonneg (m : Measurements) (v : JSNum) (ing : String)
    (unit : Option String) (hm : nonnegMeas m = true) (hv : v.nonneg = true) :
    (convertTail m v ing unit).nonneg = true := by
  unfold convertTail
  by_cases hu : unit = some "piece"
  · rw [if_pos hu]
    cases hps : pieceStep m v ing with
    | some r => exact pieceStep_nonneg m v ing r hm hv hps
    | none => exact convertStage2_nonneg m v ing unit hm hv
  · rw [if_neg hu]
    exact convertStage2_nonneg m v ing unit hm hv

lemma convertToGrams_nonneg (m : Measurements) (pq : ParsedQuantity)
    (name : Option String) (hm : nonnegMeas m = true)
    (hv : pq.value.nonneg = true) :
    (convertToGrams m pq name).nonneg = true := by
  unfold convertToGrams
  by_cases hg : pq.unit = some "g"
  · rw [if_pos hg]; exact hv
  · rw [if_neg hg]
    by_cases hml : pq.unit = some "ml"
    · rw [if_pos hml]; exact hv
    · rw [if_neg hml]
      exact convertTail_nonneg m pq.value _ pq.unit hm hv

/-- C3 (amended): for every quantity phrase and every ingredient name,
`standardizeToGrams` never throws (it is a total function) and never
returns a negative number, provided every factor in the conversion table
is non-negative; the result is however not always a finite number - a
malformed range ("abc-3 cup") yields NaN and a zero-denominator fraction
("1/0 cup") yields Infinity. -/
theorem C3_amended (m : Measurements) (s : String) (name : Option String)
    (hm : nonnegMeas m = true) :
    (standardizeToGrams m s name).nonneg = true := by
  unfold standardizeToGrams
  exact convertToGrams_nonneg m _ name hm (parseQuantity_value_nonneg s)

/-- C3 (counterexample): the quantity phrase "0/0 cup" parses through the
fraction branch as 0/0 = NaN, and conversion multiplies NaN by the cup
factor, so `standardizeToGrams` returns NaN - the claimed "never NaN,
always finite" fails (and "abc-3 cup" likewise gives NaN through the
range branch). -/
theorem C3_counterexample :
    standardizeToGrams specMeasurements "0/0 cup" (some "potato") = JSNum.nan
    ∧ standardizeToGrams specMeasurements "abc-3 cup" (some "potato") = JSNum.nan
    ∧ standardizeToGrams specMeasurements "1/0 cup" (some "potato") = JSNum.inf := by
  refine ⟨by decide, by decide, by decide⟩

/-- C3 (witness): the amended theorem applied to a concrete phrase and
the spec-modelled table. -/
theorem C3_witness :
    nonnegMeas specMeasurements = true
    ∧ (standardizeToGrams specMeasurements "2-3 tablespoon"
        (some "sugar")).nonneg = true :=
  ⟨by decide, C3_amended specMeasurements "2-3 tablespoon" (some "sugar")
    (by decide)⟩
